import Mathlib

/-!
# gobbb: request signing, gateway requests, event dispatch and client registry

A shallow embedding of `bbb.go` (package `bbb`) and `bbbdemo/ws.go`.

* Go strings are byte sequences: `GoString = List (Fin 256)`.
* A Go map is a list of entries with pairwise different keys, in some
  iteration order; every result below is stated for all such orders.
* Library code the sources call (`net/url` query encoding, `crypto/sha1`,
  `fmt.Sprintf("%x")`) is embedded from its definition; URL resolution
  (`(*url.URL).Parse`) is a parameter.
-/

namespace Gobbb

/-! ## Go strings -/

/-- One byte of a Go string. -/
abbrev Byte := Fin 256

/-- A Go `string`: an immutable sequence of bytes. -/
abbrev GoString := List Byte

/-- UTF-8 encoding of one code point, as the Go compiler stores string literals. -/
def utf8 (c : Char) : GoString :=
  let n := c.toNat
  if n < 0x80 then [Fin.ofNat n]
  else if n < 0x800 then [Fin.ofNat (0xC0 + n / 64), Fin.ofNat (0x80 + n % 64)]
  else if n < 0x10000 then
    [Fin.ofNat (0xE0 + n / 4096), Fin.ofNat (0x80 + n / 64 % 64), Fin.ofNat (0x80 + n % 64)]
  else [Fin.ofNat (0xF0 + n / 262144), Fin.ofNat (0x80 + n / 4096 % 64),
        Fin.ofNat (0x80 + n / 64 % 64), Fin.ofNat (0x80 + n % 64)]

/-- A string literal of the source as a Go string. -/
def str (s : String) : GoString := s.data.flatMap utf8

/-! ## `net/url`: query escaping and `url.Values` -/

/-- Function `shouldEscape(c, encodeQueryComponent)` of `net/url`: everything but
ASCII letters, digits and `-`, `_`, `.`, `~` is escaped in a query component. -/
def shouldEscape (c : Byte) : Bool :=
  if (65 ≤ c.val ∧ c.val ≤ 90) ∨ (97 ≤ c.val ∧ c.val ≤ 122) ∨ (48 ≤ c.val ∧ c.val ≤ 57) then false
  else if c.val = 45 ∨ c.val = 95 ∨ c.val = 46 ∨ c.val = 126 then false
  else true

/-- Digit `n` of `"0123456789ABCDEF"`. -/
def upperhex (n : Nat) : Byte :=
  if n < 10 then Fin.ofNat (48 + n) else Fin.ofNat (55 + n)

/-- What `escape` writes for one byte: a space becomes `+`, any other escaped
byte becomes `%XX`, the rest is copied. -/
def escapeByte (c : Byte) : GoString :=
  if shouldEscape c then
    if c.val = 32 then [43] else [37, upperhex (c.val / 16), upperhex (c.val % 16)]
  else [c]

/-- Function `url.QueryEscape`. -/
def QueryEscape (s : GoString) : GoString := s.flatMap escapeByte

/-- Function `unhex` of `net/url`: the value of a hexadecimal digit. -/
def unhex (c : Byte) : Nat :=
  if 48 ≤ c.val ∧ c.val ≤ 57 then c.val - 48
  else if 97 ≤ c.val ∧ c.val ≤ 102 then c.val - 97 + 10
  else if 65 ≤ c.val ∧ c.val ≤ 70 then c.val - 65 + 10
  else 0

/-- What `unescape` (mode `encodeQueryComponent`) reads back from the bytes
written for one byte: `%XX` is the byte `XX`, `+` is a space. -/
def unescapeByte (s : GoString) : Byte :=
  match s with
  | [c] => if c.val = 43 then 32 else c
  | [_, h, l] => Fin.ofNat (unhex h * 16 + unhex l)
  | _ => 0

/-- Type `url.Values` (`map[string][]string`): the entries in iteration order. -/
abbrev Values := List (GoString × List GoString)

/-- The keys of a map, in iteration order. -/
def Values.keys (v : Values) : List GoString := v.map Prod.fst

/-- The comma-ok test `_, t := v[key]`. -/
def Values.has (v : Values) (key : GoString) : Bool := (v.lookup key).isSome

/-- The map read `v[key]`; `nil` for an absent key. -/
def Values.get (v : Values) (key : GoString) : List GoString := (v.lookup key).getD []

/-- The map write `v[key] = vs`. -/
def Values.put (v : Values) (key : GoString) (vs : List GoString) : Values :=
  if Values.has v key then v.map (fun e => if e.1 = key then (key, vs) else e)
  else v ++ [(key, vs)]

/-- Method `Values.Add`: `v[key] = append(v[key], value)`. -/
def Values.Add (v : Values) (key value : GoString) : Values :=
  Values.put v key (Values.get v key ++ [value])

/-- Method `Values.Set`: `v[key] = []string{value}`. -/
def Values.Set (v : Values) (key value : GoString) : Values :=
  Values.put v key [value]

/-- Function `sort.Strings`: ascending in the bytewise order of Go strings. -/
def sortStrings (keys : List GoString) : List GoString :=
  keys.insertionSort (fun a b => a ≤ b)

/-- One pass of the inner loop of `Values.Encode`: write `key=value` to the
buffer, after a `&` when the buffer is not empty. -/
def Encode.write (key : GoString) (buf value : GoString) : GoString :=
  (if buf.length > 0 then buf ++ [38] else buf) ++ QueryEscape key ++ [61] ++ QueryEscape value

/-- Method `Values.Encode`: the keys are sorted, and for every key each of its
values is written as `key=value`, the pairs joined by `&`. -/
def Encode (v : Values) : GoString :=
  (sortStrings (Values.keys v)).foldl
    (fun buf k => (Values.get v k).foldl (Encode.write k) buf) []

/-! ## `crypto/sha1` and `%x` -/

namespace sha1

/-- Rotate a 32-bit word left by `n` bits. -/
def rotl (n x : Nat) : Nat := ((x <<< n) ||| (x >>> (32 - n))) % 2 ^ 32

/-- The `width` big-endian bytes of `n`. -/
def be (n width : Nat) : List Nat :=
  (List.range width).map fun i => n / 256 ^ (width - 1 - i) % 256

/-- Message padding: a `0x80` byte, zero bytes up to 56 modulo 64, and the
bit length as 8 big-endian bytes. -/
def pad (msg : List Nat) : List Nat :=
  let l := msg.length
  msg ++ [0x80] ++ List.replicate ((119 - l % 64) % 64) 0 ++ be (8 * l % 2 ^ 64) 8

/-- A big-endian word from its bytes. -/
def word (bs : List Nat) : Nat := bs.foldl (fun acc b => acc * 256 + b) 0

/-- The 80-word message schedule of one 64-byte block. -/
def schedule (blk : List Nat) : List Nat :=
  let w16 := (List.range 16).map fun i => word ((blk.drop (4 * i)).take 4)
  (List.range 64).foldl
    (fun w i =>
      let t := i + 16
      w ++ [rotl 1 (w.getD (t - 3) 0 ^^^ w.getD (t - 8) 0 ^^^ w.getD (t - 14) 0
                      ^^^ w.getD (t - 16) 0)])
    w16

/-- The five 32-bit chaining words. -/
structure Digest where
  h0 : Nat
  h1 : Nat
  h2 : Nat
  h3 : Nat
  h4 : Nat
deriving DecidableEq, Repr

/-- The initial chaining value. -/
def init : Digest := ⟨0x67452301, 0xEFCDAB89, 0x98BADCFE, 0x10325476, 0xC3D2E1F0⟩

/-- The round function. -/
def f (t b c d : Nat) : Nat :=
  if t < 20 then (b &&& c) ||| ((b ^^^ 0xFFFFFFFF) &&& d)
  else if t < 40 then b ^^^ c ^^^ d
  else if t < 60 then (b &&& c) ||| (b &&& d) ||| (c &&& d)
  else b ^^^ c ^^^ d

/-- The round constant. -/
def k (t : Nat) : Nat :=
  if t < 20 then 0x5A827999 else if t < 40 then 0x6ED9EBA1
  else if t < 60 then 0x8F1BBCDC else 0xCA62C1D6

/-- One of the 80 rounds. -/
def round (w : List Nat) (s : Digest) (t : Nat) : Digest :=
  let tmp := (rotl 5 s.h0 + f t s.h1 s.h2 s.h3 + s.h4 + k t + w.getD t 0) % 2 ^ 32
  ⟨tmp, s.h0, rotl 30 s.h1, s.h2, s.h3⟩

/-- Compression of one block into the chaining value. -/
def block (h : Digest) (blk : List Nat) : Digest :=
  let w := schedule blk
  let s := (List.range 80).foldl (round w) h
  ⟨(h.h0 + s.h0) % 2 ^ 32, (h.h1 + s.h1) % 2 ^ 32, (h.h2 + s.h2) % 2 ^ 32,
   (h.h3 + s.h3) % 2 ^ 32, (h.h4 + s.h4) % 2 ^ 32⟩

/-- The 64-byte blocks of a padded message. -/
def blocks (p : List Nat) : List (List Nat) :=
  (List.range (p.length / 64)).map fun i => (p.drop (64 * i)).take 64

/-- The chaining value after the whole padded message. -/
def digest (msg : GoString) : Digest :=
  (blocks (pad (msg.map Fin.val))).foldl block init

/-- The 20 bytes of `h.Sum(nil)` after the message was written to a new hash. -/
def Sum (msg : GoString) : GoString :=
  let d := digest msg
  [Fin.ofNat (d.h0 / 16777216), Fin.ofNat (d.h0 / 65536), Fin.ofNat (d.h0 / 256), Fin.ofNat d.h0,
   Fin.ofNat (d.h1 / 16777216), Fin.ofNat (d.h1 / 65536), Fin.ofNat (d.h1 / 256), Fin.ofNat d.h1,
   Fin.ofNat (d.h2 / 16777216), Fin.ofNat (d.h2 / 65536), Fin.ofNat (d.h2 / 256), Fin.ofNat d.h2,
   Fin.ofNat (d.h3 / 16777216), Fin.ofNat (d.h3 / 65536), Fin.ofNat (d.h3 / 256), Fin.ofNat d.h3,
   Fin.ofNat (d.h4 / 16777216), Fin.ofNat (d.h4 / 65536), Fin.ofNat (d.h4 / 256), Fin.ofNat d.h4]

end sha1

/-- Digit `n` of `"0123456789abcdef"`. -/
def lowerhex (n : Nat) : Byte :=
  if n < 10 then Fin.ofNat (48 + n) else Fin.ofNat (87 + n)

/-- The verb `%x` of `fmt.Sprintf` on a byte slice: two lower-case digits a byte. -/
def hex (bs : GoString) : GoString :=
  bs.flatMap fun b => [lowerhex (b.val / 16), lowerhex (b.val % 16)]

/-! ## `bbb.go` -/

/-- Type `BigBlueButton`; `URL` stands for `*url.URL`. -/
structure BigBlueButton (URL : Type) where
  Secret : GoString
  Url : URL

/-- Method `checksum` (bbb.go 187-196): one trailing `&` is cut off when it is
not the first byte, then `action`, `params` and the secret are hashed. -/
def checksum {URL : Type} (b3 : BigBlueButton URL) (action params : GoString) : GoString :=
  let i : Int := (params.length : Int) - 1
  let params := if i > 0 ∧ params.getD i.toNat 0 = 38 then params.take i.toNat else params
  hex (sha1.Sum (action ++ params ++ b3.Secret))

/-- What a call of `makeURL` leaves behind: the query map after the call, the
reference handed to `b3.Url.Parse`, and the URL returned (`none` for `nil`). -/
structure Built (URL : Type) where
  query : Values
  ref : GoString
  url : Option URL

/-- Method `makeURL` (bbb.go 198-204). `Parse base ref` is `base.Parse(ref)`,
whose error is dropped by the source. -/
def makeURL {URL : Type} (Parse : URL → GoString → Option URL) (b3 : BigBlueButton URL)
    (action : GoString) (query : Values) : Built URL :=
  let query :=
    if !Values.has query (str "checksum") then
      Values.Add query (str "checksum") (checksum b3 action (Encode query))
    else query
  let ref := action ++ str "?" ++ Encode query
  ⟨query, ref, Parse b3.Url ref⟩

/-- Function `mergeUrlValues` (bbb.go 206-218). -/
def mergeUrlValues (values : List Values) : Values :=
  values.foldl
    (fun m v => v.foldl
      (fun m kv =>
        if Values.has m kv.1 then Values.put m kv.1 (Values.get m kv.1 ++ kv.2)
        else Values.put m kv.1 kv.2)
      m)
    []

/-- Function `strings.Join`. -/
def Join (elems : List GoString) (sep : GoString) : GoString :=
  match elems with
  | [] => []
  | [e] => e
  | e :: rest => e ++ sep ++ Join rest sep

/-- Function `strconv.FormatBool`. -/
def FormatBool (b : Bool) : GoString := if b then str "true" else str "false"

/-- Which function of `net/http` sends the request. -/
inductive Method where
  | Get
  | Post
  | PostForm
deriving DecidableEq, Repr

/-- A request as an operation hands it to `net/http`: the URL requested (`none`
for a `nil` URL), the reference it was resolved from against `b3.Url` (`none`
when it is `b3.Url` itself), the `url.Values` that were encoded into the query
of that reference or are posted as the form, and a raw body. -/
structure Request (URL : Type) where
  method : Method
  url : Option URL
  ref : Option GoString
  values : Values
  body : Option GoString

/-- Modelled from the spec: interface `OptionEncoder` and type `CreateOptions`
are declared outside the given sources. The operations use the `Values()` of
an options value and, when it is a `*CreateOptions`, its `Documents` (the
attachment documents of create-with-attachments); `Documents` is `none` for
every other implementation. -/
structure OptionEncoder (Doc : Type) where
  Values : Gobbb.Values
  Documents : Option (List Doc)

/-- The request of method `Create` (bbb.go 29-49). `buildCreateMeetingXML` is
declared outside the given sources; `none` is its error, after which nothing
is requested. -/
def Create {URL Doc : Type} (Parse : URL → GoString → Option URL)
    (buildCreateMeetingXML : List Doc → Option GoString) (b3 : BigBlueButton URL)
    (id : GoString) (options : OptionEncoder Doc) : Option (Request URL) :=
  let u := makeURL Parse b3 (str "create")
    (mergeUrlValues [[(str "meetingID", [id])], options.Values])
  match options.Documents with
  | some docs =>
    if docs.length > 0 then
      match buildCreateMeetingXML docs with
      | some mods => some ⟨Method.Post, u.url, some u.ref, u.query, some mods⟩
      | none => none
    else some ⟨Method.Get, u.url, some u.ref, u.query, none⟩
  | none => some ⟨Method.Get, u.url, some u.ref, u.query, none⟩

/-- The request of method `DefaultConfigXML` (bbb.go 51-59). -/
def DefaultConfigXML {URL : Type} (Parse : URL → GoString → Option URL)
    (b3 : BigBlueButton URL) : Request URL :=
  let u := makeURL Parse b3 (str "getDefaultConfigXML") []
  ⟨Method.Get, u.url, some u.ref, u.query, none⟩

/-- The request of method `SetConfigXML` (bbb.go 61-78); `configXML` is
`c.String()`. Nothing is requested when the action cannot be resolved. -/
def SetConfigXML {URL : Type} (Parse : URL → GoString → Option URL)
    (b3 : BigBlueButton URL) (meeting configXML : GoString) : Option (Request URL) :=
  let action := str "setConfigXML"
  let params : Values := [(str "meetingID", [meeting]), (str "configXML", [configXML])]
  let params := Values.Add params (str "checksum") (checksum b3 action (Encode params))
  match Parse b3.Url (action ++ str ".xml") with
  | none => none
  | some u => some ⟨Method.PostForm, some u, some (action ++ str ".xml"), params, none⟩

/-- Method `JoinURL` (bbb.go 80-88): the URL whose `String()` is returned. -/
def JoinURL {URL Doc : Type} (Parse : URL → GoString → Option URL) (b3 : BigBlueButton URL)
    (name meetingID password : GoString) (options : OptionEncoder Doc) : Built URL :=
  makeURL Parse b3 (str "join")
    (mergeUrlValues
      [[(str "fullName", [name]), (str "meetingID", [meetingID]), (str "password", [password])],
       options.Values])

/-- The request of method `IsMeetingRunning` (bbb.go 90-98). -/
def IsMeetingRunning {URL : Type} (Parse : URL → GoString → Option URL)
    (b3 : BigBlueButton URL) (id : GoString) : Request URL :=
  let u := makeURL Parse b3 (str "isMeetingRunning") [(str "meetingID", [id])]
  ⟨Method.Get, u.url, some u.ref, u.query, none⟩

/-- The terminate request of method `End` (bbb.go 101-102). -/
def End.request {URL : Type} (Parse : URL → GoString → Option URL)
    (b3 : BigBlueButton URL) (id password : GoString) : Request URL :=
  let u := makeURL Parse b3 (str "end") [(str "meetingID", [id]), (str "password", [password])]
  ⟨Method.Get, u.url, some u.ref, u.query, none⟩

/-- The request of method `MeetingInfo` (bbb.go 113-121). -/
def MeetingInfo {URL : Type} (Parse : URL → GoString → Option URL)
    (b3 : BigBlueButton URL) (id password : GoString) : Request URL :=
  let u := makeURL Parse b3 (str "getMeetingInfo")
    [(str "meetingID", [id]), (str "password", [password])]
  ⟨Method.Get, u.url, some u.ref, u.query, none⟩

/-- The request of method `Meetings` (bbb.go 123-131). -/
def Meetings {URL : Type} (Parse : URL → GoString → Option URL)
    (b3 : BigBlueButton URL) : Request URL :=
  let u := makeURL Parse b3 (str "getMeetings") []
  ⟨Method.Get, u.url, some u.ref, u.query, none⟩

/-- The request of method `Recordings` (bbb.go 133-145). -/
def Recordings {URL : Type} (Parse : URL → GoString → Option URL)
    (b3 : BigBlueButton URL) (meetings : List GoString) : Request URL :=
  let q : Values := []
  let q := if meetings.length > 0 then Values.Set q (str "meetingID") (Join meetings (str ","))
    else q
  let u := makeURL Parse b3 (str "getRecordings") q
  ⟨Method.Get, u.url, some u.ref, u.query, none⟩

/-- The request of method `PublishRecordings` (bbb.go 147-161); none is made
for an empty list. -/
def PublishRecordings {URL : Type} (Parse : URL → GoString → Option URL)
    (b3 : BigBlueButton URL) (recordings : List GoString) (publish : Bool) :
    Option (Request URL) :=
  if recordings.length > 0 then
    let u := makeURL Parse b3 (str "publishRecordings")
      [(str "recordID", [Join recordings (str ",")]), (str "publish", [FormatBool publish])]
    some ⟨Method.Get, u.url, some u.ref, u.query, none⟩
  else none

/-- The request of method `DeleteRecordings` (bbb.go 163-176); none is made for
an empty list. -/
def DeleteRecordings {URL : Type} (Parse : URL → GoString → Option URL)
    (b3 : BigBlueButton URL) (recordings : List GoString) : Option (Request URL) :=
  if recordings.length > 0 then
    let u := makeURL Parse b3 (str "deleteRecordings")
      [(str "recordID", [Join recordings (str ",")])]
    some ⟨Method.Get, u.url, some u.ref, u.query, none⟩
  else none

/-- The request of method `ServerVersion` (bbb.go 178-185): `b3.Url` itself. -/
def ServerVersion {URL : Type} (b3 : BigBlueButton URL) : Request URL :=
  ⟨Method.Get, some b3.Url, none, [], none⟩

/-- A parameter map carries the signature of an action: its `checksum` field
holds exactly one value, the checksum of the action and of the encoding of
the other fields. -/
def carriesSignature {URL : Type} (b3 : BigBlueButton URL) (action : GoString)
    (values : Values) : Prop :=
  values.lookup (str "checksum")
    = some [checksum b3 action (Encode (values.filter fun e => e.1 ≠ str "checksum"))]

/-- Whether a parameter map carries the signature can be computed. -/
instance carriesSignature.decidable {URL : Type} (b3 : BigBlueButton URL) (action : GoString)
    (values : Values) : Decidable (carriesSignature b3 action values) := by
  unfold carriesSignature
  exact inferInstance

/-- What method `End` does, in order. -/
inductive EndStep where
  | Terminate
  | Poll (retries : Nat)
  | Sleep (seconds : Nat)
deriving DecidableEq, Repr

/-- The loop of method `End` (bbb.go 103-108) with `remaining` passes left:
`infoErr retries` tells whether the `MeetingInfo` call of that pass returns an
error. -/
def End.loop (infoErr : Nat → Bool) : (remaining : Nat) → (retries : Nat) → Bool × List EndStep
  | 0, _ => (false, [])
  | remaining + 1, retries =>
    if infoErr retries then (true, [EndStep.Poll retries])
    else
      let r := End.loop infoErr remaining (retries + 1)
      (r.1, EndStep.Poll retries :: EndStep.Sleep 2 :: r.2)

/-- Method `End` (bbb.go 100-111): `getErr` tells whether `http.Get` of the
terminate request returns an error. The result and the steps taken. -/
def End (getErr : Bool) (infoErr : Nat → Bool) : Bool × List EndStep :=
  if !getErr then
    let r := End.loop infoErr 10 0
    (r.1, EndStep.Terminate :: r.2)
  else (false, [EndStep.Terminate])

/-- The polls among the steps of `End`. -/
def polls (steps : List EndStep) : List Nat :=
  steps.filterMap fun s => match s with
    | EndStep.Poll n => some n
    | _ => none

/-- The seconds slept among the steps of `End`. -/
def sleeps (steps : List EndStep) : List Nat :=
  steps.filterMap fun s => match s with
    | EndStep.Sleep n => some n
    | _ => none

/-! ## `bbbdemo/ws.go` -/

/-- Type `WsEvent`; the values of `WsEventData` are kept as text. -/
structure WsEvent where
  Event : GoString
  Data : List (GoString × GoString)
deriving DecidableEq

/-- The values of Go type `error` that occur: a `WsEventHandlerNotFound`,
`io.EOF`, or any other error with its message. -/
inductive error where
  | WsEventHandlerNotFound (e : GoString)
  | EOF
  | other (msg : GoString)
deriving DecidableEq

/-- Method `Error` (ws.go 147-149 for `WsEventHandlerNotFound`). -/
def error.Error : error → GoString
  | error.WsEventHandlerNotFound e => str "Event Handler '" ++ e ++ str "' not found!"
  | error.EOF => str "EOF"
  | error.other msg => msg

/-- Function `newWsEventHandlerNotFound` (ws.go 151-153). -/
def newWsEventHandlerNotFound (e : GoString) : error := error.WsEventHandlerNotFound e

/-- A `*Client`: the address of the client. -/
abbrev ClientPtr := Nat

/-- Type `WsEventHandlerFunc`: a handler acts on the state `σ` of the program
and returns an error or `nil`. -/
abbrev WsEventHandlerFunc (σ : Type) := ClientPtr → WsEvent → σ → Option error × σ

/-- Method `Handle` (ws.go 111-116); `h` is the map `ws.h`. -/
def Handle {σ : Type} (h : List (GoString × WsEventHandlerFunc σ)) (c : ClientPtr)
    (ev : WsEvent) (s : σ) : Option error × σ :=
  match h.lookup ev.Event with
  | some f => f c ev s
  | none => (some (newWsEventHandlerNotFound ev.Event), s)

/-- Functions `HandleConnect`, `HandleCreate`, `HandleJoinURL` and `HandleEnd`
(ws.go 13-16): each returns `nil`. -/
def HandleNil {σ : Type} : WsEventHandlerFunc σ := fun _ _ s => (none, s)

/-- The map `h` of the variable `handler` (ws.go 18-24). -/
def handler.h (σ : Type) : List (GoString × WsEventHandlerFunc σ) :=
  [(str "connect", HandleNil), (str "create", HandleNil),
   (str "joinURL", HandleNil), (str "end", HandleNil)]

/-- The memory that the registry methods of one `WsEventHandler` touch: the
keys of its map `c` in iteration order, the field `handler` of every client
(the address of a `WsEventHandler`, `none` for `nil`), and what was sent on
the channel `events` of every client and not yet received. -/
structure Hub where
  c : List ClientPtr
  handler : ClientPtr → Option Nat
  events : ClientPtr → List WsEvent

/-- The variable `handler` as initialised (ws.go 25), with no client known. -/
def Hub.init : Hub := ⟨[], fun _ => none, fun _ => []⟩

/-- Method `AddClient` (ws.go 118-125) of the `WsEventHandler` at address `ws`. -/
def AddClient (ws : Nat) (c : ClientPtr) (s : Hub) : Hub :=
  if c ∈ s.c then s
  else { s with c := s.c ++ [c], handler := Function.update s.handler c (some ws) }

/-- Method `RemoveClient` (ws.go 127-134). -/
def RemoveClient (c : ClientPtr) (s : Hub) : Hub :=
  if c ∈ s.c then { s with c := s.c.erase c, handler := Function.update s.handler c none }
  else s

/-- Method `Broadcast` (ws.go 136-143), every send being accepted. -/
def Broadcast (event : WsEvent) (s : Hub) : Option error × Hub :=
  (none, s.c.foldl
    (fun s peer => { s with events := Function.update s.events peer (s.events peer ++ [event]) })
    s)

/-- What `websocket.JSON.Receive` leaves behind: its error (`none` for `nil`)
and the value of `ev`. -/
abbrev Received := Option error × WsEvent

/-- What method `Reader` has done: the state the handlers act on, the lines
logged, the number of values sent on `c.done`, and whether it has returned. -/
structure ReaderState (σ : Type) where
  world : σ
  log : List GoString
  done : Nat
  returned : Bool

/-- The line `log.Printf("Reader[%s]: %s", c.address, err)`. -/
def Reader.line (address : GoString) (err : error) : GoString :=
  str "Reader[" ++ address ++ str "]: " ++ err.Error

/-- Method `Reader` (ws.go 65-79) of a client with address text `address`
whose field `handler` has the map `h`, run on the outcomes of its successive
`Receive` calls; after the last outcome given it waits in `Receive`. -/
def Reader {σ : Type} (h : List (GoString × WsEventHandlerFunc σ)) (address : GoString)
    (c : ClientPtr) : List Received → ReaderState σ → ReaderState σ
  | [], s => s
  | (err, ev) :: rest, s =>
    if err = some error.EOF then
      { s with log := s.log ++ [Reader.line address error.EOF], done := s.done + 1,
               returned := true }
    else
      let r := Handle h c ev s.world
      let s := { s with world := r.2 }
      let s := match r.1 with
        | some e => { s with log := s.log ++ [Reader.line address e] }
        | none => s
      Reader h address c rest s

/-! ## Theorems -/

set_option maxRecDepth 100000

/-- The model of SHA-1 reproduces the digest of "abc" from FIPS 180. -/
theorem sha1_abc :
    hex (sha1.Sum (str "abc")) = str "a9993e364706816aba3e25717850c26c9cd0d89d" := by
  decide

/-! ### Maps as entry lists: reads do not depend on the iteration order -/

/-- A key that is none of the keys of a map is not found. -/
theorem lookup_eq_none_of_not_mem_keys (v : Values) (k : GoString)
    (h : k ∉ Values.keys v) : v.lookup k = none := by
  induction v with
  | nil => rfl
  | cons e v ih =>
    obtain ⟨a, b⟩ := e
    simp only [Values.keys, List.map_cons, List.mem_cons, not_or] at h
    have hne : (k == a) = false := by simpa using h.1
    simp only [List.lookup, hne]
    exact ih h.2

/-- In a map with pairwise different keys every entry is found under its key. -/
theorem lookup_eq_some_of_mem (v : Values) (hv : (Values.keys v).Nodup)
    (k : GoString) (vs : List GoString) (h : (k, vs) ∈ v) : v.lookup k = some vs := by
  induction v with
  | nil => simp at h
  | cons e v ih =>
    obtain ⟨a, b⟩ := e
    simp only [Values.keys, List.map_cons, List.nodup_cons] at hv
    rcases List.mem_cons.1 h with h1 | h1
    · cases h1
      simp [List.lookup]
    · have hka : k ≠ a := by
        rintro rfl
        exact hv.1 (List.mem_map.2 ⟨(k, vs), h1, rfl⟩)
      have hne : (k == a) = false := by simpa using hka
      simp only [List.lookup, hne]
      exact ih hv.2 h1

/-- A key that is found is the key of an entry. -/
theorem mem_of_lookup_eq_some (v : Values) (k : GoString) (vs : List GoString)
    (h : v.lookup k = some vs) : (k, vs) ∈ v := by
  induction v with
  | nil => simp at h
  | cons e v ih =>
    obtain ⟨a, b⟩ := e
    by_cases hka : k = a
    · subst hka
      simp [List.lookup] at h
      simp [h]
    · have hne : (k == a) = false := by simpa using hka
      simp only [List.lookup, hne] at h
      exact List.mem_cons_of_mem _ (ih h)

/-- Two iteration orders of one map give the same read for every key. -/
theorem lookup_perm (p q : Values) (hp : (Values.keys p).Nodup) (hpq : p.Perm q)
    (k : GoString) : p.lookup k = q.lookup k := by
  have hq : (Values.keys q).Nodup := (hpq.map Prod.fst).nodup_iff.1 hp
  cases hl : p.lookup k with
  | some vs =>
    have hmem : (k, vs) ∈ q := hpq.subset (mem_of_lookup_eq_some p k vs hl)
    exact (lookup_eq_some_of_mem q hq k vs hmem).symm
  | none =>
    cases hl2 : q.lookup k with
    | none => rfl
    | some vs =>
      have hmem : (k, vs) ∈ p := hpq.symm.subset (mem_of_lookup_eq_some q k vs hl2)
      rw [lookup_eq_some_of_mem p hp k vs hmem] at hl
      cases hl

/-- Sorting forgets the order of its input. -/
theorem sortStrings_perm (l₁ l₂ : List GoString) (h : l₁.Perm l₂) :
    sortStrings l₁ = sortStrings l₂ := by
  unfold sortStrings
  apply List.eq_of_perm_of_sorted (r := fun a b : GoString => a ≤ b)
  · exact ((List.perm_insertionSort _ l₁).trans h).trans (List.perm_insertionSort _ l₂).symm
  · exact List.sorted_insertionSort _ l₁
  · exact List.sorted_insertionSort _ l₂

/-- The canonical encoding does not depend on the iteration order of the map. -/
theorem Encode_perm (p q : Values) (hp : (Values.keys p).Nodup) (hpq : p.Perm q) :
    Encode p = Encode q := by
  unfold Encode
  rw [sortStrings_perm (Values.keys p) (Values.keys q) (hpq.map Prod.fst)]
  have hget : ∀ k, Values.get p k = Values.get q k := fun k => by
    unfold Values.get
    rw [lookup_perm p q hp hpq k]
  simp only [hget]

/-- Whether a key is present does not depend on the iteration order of the map. -/
theorem has_perm (p q : Values) (hp : (Values.keys p).Nodup) (hpq : p.Perm q)
    (k : GoString) : Values.has p k = Values.has q k := by
  unfold Values.has
  rw [lookup_perm p q hp hpq k]

/-- A key is present exactly when it is one of the keys. -/
theorem has_eq_false_iff (v : Values) (k : GoString) :
    Values.has v k = false ↔ k ∉ Values.keys v := by
  induction v with
  | nil => simp [Values.has, Values.keys]
  | cons e v ih =>
    obtain ⟨c, d⟩ := e
    by_cases hkc : k = c
    · subst hkc
      simp [Values.has, Values.keys, List.lookup]
    · have hne : (k == c) = false := by simpa using hkc
      have ih2 : (List.lookup k v).isSome = false ↔ k ∉ List.map Prod.fst v := ih
      simp only [Values.has, Values.keys, List.lookup, hne, List.map_cons, List.mem_cons,
        not_or, ih2]
      exact ⟨fun h => ⟨hkc, h⟩, fun h => h.2⟩

/-- Adding a value under an absent key appends one entry holding just that value. -/
theorem Add_of_not_has (v : Values) (k x : GoString) (h : Values.has v k = false) :
    Values.Add v k x = v ++ [(k, [x])] := by
  have hl : v.lookup k = none := by
    simpa [Values.has] using h
  simp [Values.Add, Values.put, Values.get, h, hl]

/-! ### Signing -/

/-- The bytes that `checksum` hashes: `action`, the parameters without one
trailing `&`, and the secret. -/
theorem checksum_eq {URL : Type} (b3 : BigBlueButton URL) (action params : GoString)
    (h : ¬ (((params.length : Int) - 1 > 0) ∧ params.getD ((params.length : Int) - 1).toNat 0 = 38)) :
    checksum b3 action params = hex (sha1.Sum (action ++ params ++ b3.Secret)) := by
  unfold checksum
  simp only [h, if_false]

/-- The last byte read by `checksum` is the last byte of the string. -/
theorem getD_pred_length (p : GoString) (hp : p ≠ []) :
    p.getLast? = some (p.getD (p.length - 1) 0) := by
  induction p with
  | nil => exact absurd rfl hp
  | cons a t ih =>
    cases t with
    | nil => rfl
    | cons b t2 =>
      have h2 := ih (List.cons_ne_nil b t2)
      rw [List.getLast?_cons_cons, h2]
      simp [List.getD_cons_succ]

/-- C1: the signature that makeURL attaches depends only on the contents of the
parameter map and not on the order of its entries: two entry lists of one map
(pairwise different keys, one a permutation of the other) have the same
canonical encoding, the same checksum, and makeURL builds the same reference
and the same URL from them. -/
theorem C1_signature_insertion_order {URL : Type} (Parse : URL → GoString → Option URL)
    (b3 : BigBlueButton URL) (action : GoString) (p q : Values)
    (hp : (Values.keys p).Nodup) (hpq : p.Perm q) :
    Encode p = Encode q ∧
    checksum b3 action (Encode p) = checksum b3 action (Encode q) ∧
    (makeURL Parse b3 action p).ref = (makeURL Parse b3 action q).ref ∧
    (makeURL Parse b3 action p).url = (makeURL Parse b3 action q).url := by
  have hE : Encode p = Encode q := Encode_perm p q hp hpq
  have href : (makeURL Parse b3 action p).ref = (makeURL Parse b3 action q).ref := by
    have hhas := has_perm p q hp hpq (str "checksum")
    cases hc : Values.has p (str "checksum") with
    | true =>
      have hc2 : Values.has q (str "checksum") = true := by rw [← hhas]; exact hc
      simp [makeURL, hc, hc2, hE]
    | false =>
      have hc2 : Values.has q (str "checksum") = false := by rw [← hhas]; exact hc
      have hnd : (Values.keys (p ++ [(str "checksum", [checksum b3 action (Encode p)])])).Nodup := by
        have hnot := (has_eq_false_iff p (str "checksum")).1 hc
        simp only [Values.keys, List.map_append, List.map_cons, List.map_nil]
        refine List.Nodup.append hp (List.nodup_singleton _) ?_
        intro a ha hb
        rw [List.mem_singleton] at hb
        subst hb
        exact hnot ha
      have hperm : (p ++ [(str "checksum", [checksum b3 action (Encode p)])]).Perm
          (q ++ [(str "checksum", [checksum b3 action (Encode p)])]) :=
        List.Perm.append_right _ hpq
      have hE2 := Encode_perm _ _ hnd hperm
      simp only [makeURL, hc, hc2, Add_of_not_has, Bool.not_false, if_true]
      rw [← hE, hE2]
  refine ⟨hE, by rw [hE], href, ?_⟩
  have h1 : (makeURL Parse b3 action p).url = Parse b3.Url (makeURL Parse b3 action p).ref := rfl
  have h2 : (makeURL Parse b3 action q).url = Parse b3.Url (makeURL Parse b3 action q).ref := rfl
  rw [h1, h2, href]

/-- Witness of C1: the parameters of an `end` call in both orders. -/
theorem C1_signature_insertion_order_witness :
    (Values.keys [(str "meetingID", [str "42"]), (str "password", [str "pw"])]).Nodup ∧
    List.Perm [(str "meetingID", [str "42"]), (str "password", [str "pw"])]
      [(str "password", [str "pw"]), (str "meetingID", [str "42"])] ∧
    Encode [(str "meetingID", [str "42"]), (str "password", [str "pw"])]
      = Encode [(str "password", [str "pw"]), (str "meetingID", [str "42"])] ∧
    checksum (⟨str "s3cr3t", str "http://bbb/api/"⟩ : BigBlueButton GoString) (str "end")
        (Encode [(str "meetingID", [str "42"]), (str "password", [str "pw"])])
      = checksum (⟨str "s3cr3t", str "http://bbb/api/"⟩ : BigBlueButton GoString) (str "end")
        (Encode [(str "password", [str "pw"]), (str "meetingID", [str "42"])]) ∧
    (makeURL (fun base ref => some (base ++ ref))
        (⟨str "s3cr3t", str "http://bbb/api/"⟩ : BigBlueButton GoString) (str "end")
        [(str "meetingID", [str "42"]), (str "password", [str "pw"])]).ref
      = (makeURL (fun base ref => some (base ++ ref))
        (⟨str "s3cr3t", str "http://bbb/api/"⟩ : BigBlueButton GoString) (str "end")
        [(str "password", [str "pw"]), (str "meetingID", [str "42"])]).ref ∧
    (makeURL (fun base ref => some (base ++ ref))
        (⟨str "s3cr3t", str "http://bbb/api/"⟩ : BigBlueButton GoString) (str "end")
        [(str "meetingID", [str "42"]), (str "password", [str "pw"])]).url
      = (makeURL (fun base ref => some (base ++ ref))
        (⟨str "s3cr3t", str "http://bbb/api/"⟩ : BigBlueButton GoString) (str "end")
        [(str "password", [str "pw"]), (str "meetingID", [str "42"])]).url :=
  ⟨by decide, List.Perm.swap _ _ _,
    C1_signature_insertion_order (fun base ref => some (base ++ ref))
      ⟨str "s3cr3t", str "http://bbb/api/"⟩ (str "end")
      [(str "meetingID", [str "42"]), (str "password", [str "pw"])]
      [(str "password", [str "pw"]), (str "meetingID", [str "42"])]
      (by decide) (List.Perm.swap _ _ _)⟩

/-- C3, as the code has it: for a non-empty parameter string that does not
itself end in `&`, appending one `&` does not change the checksum. -/
theorem C3_trailing_separator_stripped {URL : Type} (b3 : BigBlueButton URL)
    (action p : GoString) (hne : p ≠ []) (hlast : p.getLast? ≠ some 38) :
    checksum b3 action (p ++ [38]) = checksum b3 action p := by
  have hlen : 0 < p.length := List.length_pos.2 hne
  have hR : checksum b3 action p = hex (sha1.Sum (action ++ p ++ b3.Secret)) := by
    apply checksum_eq
    rintro ⟨_, h2⟩
    apply hlast
    rw [getD_pred_length p hne]
    have : ((p.length : Int) - 1).toNat = p.length - 1 := by omega
    rw [this] at h2
    rw [h2]
  have hi : (((p ++ [38]).length : Int) - 1).toNat = p.length := by
    simp
  have hpos : (((p ++ [38]).length : Int) - 1) > 0 := by
    simp only [List.length_append, List.length_singleton]
    push_cast
    omega
  have hget : (p ++ [38]).getD p.length 0 = (38 : Byte) := by
    simp [List.getD_eq_getElem?_getD]
  rw [hR]
  unfold checksum
  simp only [hi, hpos, hget, true_and, if_true, List.take_left']

/-- Witness of C3: the encoded parameters of a create call. -/
theorem C3_trailing_separator_stripped_witness :
    str "meetingID=42" ≠ [] ∧ (str "meetingID=42").getLast? ≠ some 38 ∧
    checksum (⟨str "s3cr3t", ()⟩ : BigBlueButton Unit) (str "create") (str "meetingID=42" ++ [38])
      = checksum (⟨str "s3cr3t", ()⟩ : BigBlueButton Unit) (str "create") (str "meetingID=42") :=
  ⟨by decide, by decide,
    C3_trailing_separator_stripped ⟨str "s3cr3t", ()⟩ (str "create") (str "meetingID=42")
      (by decide) (by decide)⟩

/-- C3 fails as stated: for the empty parameter string the appended `&` is the
first byte and is hashed, and for a string already ending in `&` only one of
the two separators is cut off. -/
theorem C3_counterexample :
    checksum (⟨str "s3cr3t", ()⟩ : BigBlueButton Unit) (str "create") (str "" ++ str "&")
      ≠ checksum (⟨str "s3cr3t", ()⟩ : BigBlueButton Unit) (str "create") (str "") ∧
    checksum (⟨str "s3cr3t", ()⟩ : BigBlueButton Unit) (str "create") (str "meetingID=42&" ++ str "&")
      ≠ checksum (⟨str "s3cr3t", ()⟩ : BigBlueButton Unit) (str "create") (str "meetingID=42&") := by
  decide

/-- Reading a key other than the appended one ignores the appended entry. -/
theorem lookup_append_singleton_of_ne (v : Values) (k key : GoString) (vs : List GoString)
    (h : k ≠ key) : (v ++ [(key, vs)]).lookup k = v.lookup k := by
  have hne : (k == key) = false := by simpa using h
  induction v with
  | nil => simp [List.lookup, hne]
  | cons e v ih =>
    obtain ⟨a, b⟩ := e
    by_cases hka : k = a
    · subst hka
      simp [List.lookup]
    · have hne2 : (k == a) = false := by simpa using hka
      simp only [List.cons_append, List.lookup, hne2]
      exact ih

/-- Reading an absent key after an entry for it was appended gives that entry. -/
theorem lookup_append_singleton_self (v : Values) (key : GoString) (vs : List GoString)
    (h : Values.has v key = false) : (v ++ [(key, vs)]).lookup key = some vs := by
  induction v with
  | nil => simp [List.lookup]
  | cons e v ih =>
    obtain ⟨a, b⟩ := e
    by_cases hka : key = a
    · subst hka
      simp [Values.has, List.lookup] at h
    · have hne2 : (key == a) = false := by simpa using hka
      simp only [Values.has, List.lookup, hne2] at h
      simp only [List.cons_append, List.lookup, hne2]
      exact ih h

/-- C4: makeURL signs completely or not at all. The URL it returns is resolved
from `action?` followed by the encoding of the query map as the call leaves it.
When the query already has a `checksum` key the map is left unchanged, so the
query string is the encoding of the unchanged query. Otherwise the map is the
original one plus one `checksum` entry with exactly one value, the checksum of
the action and the encoding of the original query (which has no `checksum`
key); every other key reads as before. -/
theorem C4_makeURL_signs_all_or_nothing {URL : Type} (Parse : URL → GoString → Option URL)
    (b3 : BigBlueButton URL) (action : GoString) (query : Values) :
    (makeURL Parse b3 action query).ref
        = action ++ str "?" ++ Encode (makeURL Parse b3 action query).query ∧
    (makeURL Parse b3 action query).url = Parse b3.Url (makeURL Parse b3 action query).ref ∧
    (Values.has query (str "checksum") = true →
      (makeURL Parse b3 action query).query = query ∧
      (makeURL Parse b3 action query).ref = action ++ str "?" ++ Encode query) ∧
    (Values.has query (str "checksum") = false →
      (makeURL Parse b3 action query).query
        = query ++ [(str "checksum", [checksum b3 action (Encode query)])] ∧
      (makeURL Parse b3 action query).query.lookup (str "checksum")
        = some [checksum b3 action (Encode query)] ∧
      (∀ k, k ≠ str "checksum" →
        (makeURL Parse b3 action query).query.lookup k = query.lookup k) ∧
      (makeURL Parse b3 action query).query.length = query.length + 1) := by
  refine ⟨rfl, rfl, ?_, ?_⟩
  · intro h
    simp [makeURL, h]
  · intro h
    have hq : (makeURL Parse b3 action query).query
        = query ++ [(str "checksum", [checksum b3 action (Encode query)])] := by
      simp [makeURL, h, Add_of_not_has]
    refine ⟨hq, ?_, ?_, ?_⟩
    · rw [hq]
      exact lookup_append_singleton_self query _ _ h
    · intro k hk
      rw [hq]
      exact lookup_append_singleton_of_ne query k _ _ hk
    · rw [hq]
      simp

/-- Witness of C4: an unsigned query is signed, a signed one is left alone. -/
theorem C4_makeURL_signs_all_or_nothing_witness :
    (Values.has [(str "meetingID", [str "42"]), (str "checksum", [str "abc"])] (str "checksum") = true ∧
      (makeURL (fun base ref => some (base ++ ref))
        (⟨str "s3cr3t", str "http://bbb/api/"⟩ : BigBlueButton GoString) (str "create")
        [(str "meetingID", [str "42"]), (str "checksum", [str "abc"])]).ref
        = str "create?checksum=abc&meetingID=42") ∧
    (Values.has [(str "meetingID", [str "42"])] (str "checksum") = false ∧
      (makeURL (fun base ref => some (base ++ ref))
        (⟨str "s3cr3t", str "http://bbb/api/"⟩ : BigBlueButton GoString) (str "create")
        [(str "meetingID", [str "42"])]).query
        = [(str "meetingID", [str "42"]),
           (str "checksum", [checksum (⟨str "s3cr3t", str "http://bbb/api/"⟩ : BigBlueButton GoString)
              (str "create") (str "meetingID=42")])]) :=
  ⟨⟨by decide,
     ((C4_makeURL_signs_all_or_nothing (fun base ref => some (base ++ ref))
        ⟨str "s3cr3t", str "http://bbb/api/"⟩ (str "create")
        [(str "meetingID", [str "42"]), (str "checksum", [str "abc"])]).2.2.1 (by decide)).2.trans
       (by decide)⟩,
   ⟨by decide,
     ((C4_makeURL_signs_all_or_nothing (fun base ref => some (base ++ ref))
        ⟨str "s3cr3t", str "http://bbb/api/"⟩ (str "create")
        [(str "meetingID", [str "42"])]).2.2.2 (by decide)).1.trans (by decide)⟩⟩

/-! ### Query escaping can be read back -/

/-- Unescaping what was written for a byte gives the byte back. -/
theorem unescapeByte_escapeByte : ∀ c : Byte, unescapeByte (escapeByte c) = c := by
  decide

/-- Different bytes are written differently. -/
theorem escapeByte_injective (c d : Byte) (h : escapeByte c = escapeByte d) : c = d := by
  have h2 := congrArg unescapeByte h
  rwa [unescapeByte_escapeByte, unescapeByte_escapeByte] at h2

/-- The first byte written tells how many bytes were written: three after a
`%`, one otherwise. -/
theorem escapeByte_length : ∀ c : Byte,
    (escapeByte c).length = if (escapeByte c).head? = some 37 then 3 else 1 := by
  decide

/-- No `&` is ever written for a byte. -/
theorem escapeByte_no_amp : ∀ c : Byte, (38 : Byte) ∉ escapeByte c := by
  decide

/-- The bytes written for one byte can be split off the front of a string. -/
theorem escapeByte_append_inj (c d : Byte) (r r' : GoString)
    (h : escapeByte c ++ r = escapeByte d ++ r') : c = d ∧ r = r' := by
  have hc := escapeByte_length c
  have hd := escapeByte_length d
  have hhead : (escapeByte c).head? = (escapeByte d).head? := by
    have h1 := congrArg List.head? h
    cases hec : escapeByte c with
    | nil => rw [hec] at hc; simp at hc
    | cons a t =>
      cases hed : escapeByte d with
      | nil => rw [hed] at hd; simp at hd
      | cons b t2 =>
        rw [hec, hed] at h1
        simpa using h1
  have hlen : (escapeByte c).length = (escapeByte d).length := by
    rw [hc, hd, hhead]
  obtain ⟨h1, h2⟩ := List.append_inj h hlen
  exact ⟨escapeByte_injective c d h1, h2⟩

/-- Function `QueryEscape` is injective. -/
theorem QueryEscape_injective (s t : GoString) (h : QueryEscape s = QueryEscape t) : s = t := by
  induction s generalizing t with
  | nil =>
    cases t with
    | nil => rfl
    | cons d t =>
      have hd := escapeByte_length d
      have : (escapeByte d ++ QueryEscape t).length = 0 := by
        have h2 : QueryEscape [] = escapeByte d ++ QueryEscape t := by
          simpa [QueryEscape] using h
        rw [← h2]
        rfl
      rw [List.length_append] at this
      split at hd <;> omega
  | cons c s ih =>
    cases t with
    | nil =>
      have hc := escapeByte_length c
      have : (escapeByte c ++ QueryEscape s).length = 0 := by
        have h2 : escapeByte c ++ QueryEscape s = QueryEscape [] := by
          simpa [QueryEscape] using h
        rw [h2]
        rfl
      rw [List.length_append] at this
      split at hc <;> omega
    | cons d t =>
      have h2 : escapeByte c ++ QueryEscape s = escapeByte d ++ QueryEscape t := by
        simpa [QueryEscape] using h
      obtain ⟨h3, h4⟩ := escapeByte_append_inj c d _ _ h2
      rw [h3, ih t h4]

/-- No `&` occurs in an escaped string. -/
theorem QueryEscape_no_amp (s : GoString) : (38 : Byte) ∉ QueryEscape s := by
  induction s with
  | nil => simp [QueryEscape]
  | cons c s ih =>
    have h2 : QueryEscape (c :: s) = escapeByte c ++ QueryEscape s := by
      simp [QueryEscape]
    rw [h2, List.mem_append]
    rintro (h | h)
    · exact escapeByte_no_amp c h
    · exact ih h

/-! ### The encoding changes with every value -/

/-- Writing to a non-empty buffer appends to it. -/
theorem write_of_ne_nil (key buf value : GoString) (h : buf ≠ []) :
    Encode.write key buf value = buf ++ ([38] ++ QueryEscape key ++ [61] ++ QueryEscape value) := by
  have hl : buf.length > 0 := List.length_pos.2 h
  simp [Encode.write, hl]

/-- Whatever the buffer, a write ends in the escaped value. -/
theorem write_eq_append (key buf value : GoString) :
    Encode.write key buf value
      = ((if buf.length > 0 then buf ++ [38] else buf) ++ QueryEscape key ++ [61])
        ++ QueryEscape value := by
  simp [Encode.write]

/-- A write leaves a non-empty buffer. -/
theorem write_ne_nil (key buf value : GoString) : Encode.write key buf value ≠ [] := by
  simp [Encode.write]

/-- The values of one key are appended to a non-empty buffer. -/
theorem foldl_write_tail (key : GoString) (vals : List GoString) :
    ∃ t, ∀ buf : GoString, buf ≠ [] → vals.foldl (Encode.write key) buf = buf ++ t := by
  induction vals with
  | nil => exact ⟨[], fun buf _ => by simp⟩
  | cons x vals ih =>
    obtain ⟨t, ht⟩ := ih
    refine ⟨([38] ++ QueryEscape key ++ [61] ++ QueryEscape x) ++ t, fun buf hb => ?_⟩
    rw [List.foldl_cons, ht _ (write_ne_nil key buf x), write_of_ne_nil key buf x hb,
      List.append_assoc]

/-- The values of a list of keys are appended to a non-empty buffer. -/
theorem foldl_keys_tail (v : Values) (ks : List GoString) :
    ∃ t, ∀ buf : GoString, buf ≠ [] →
      ks.foldl (fun buf k => (Values.get v k).foldl (Encode.write k) buf) buf = buf ++ t := by
  induction ks with
  | nil => exact ⟨[], fun buf _ => by simp⟩
  | cons k ks ih =>
    obtain ⟨t, ht⟩ := ih
    obtain ⟨t1, ht1⟩ := foldl_write_tail k (Values.get v k)
    refine ⟨t1 ++ t, fun buf hb => ?_⟩
    rw [List.foldl_cons, ht1 buf hb, ht _ (by simp [hb]), List.append_assoc]

/-- The outer loop of `Encode` reads the map only at the keys it visits. -/
theorem foldl_keys_congr (v w : Values) (ks : List GoString) (buf : GoString)
    (h : ∀ k ∈ ks, Values.get v k = Values.get w k) :
    ks.foldl (fun buf k => (Values.get v k).foldl (Encode.write k) buf) buf
      = ks.foldl (fun buf k => (Values.get w k).foldl (Encode.write k) buf) buf := by
  induction ks generalizing buf with
  | nil => rfl
  | cons k ks ih =>
    rw [List.foldl_cons, List.foldl_cons, h k (List.mem_cons_self _ _)]
    exact ih _ (fun k2 hk2 => h k2 (List.mem_cons_of_mem _ hk2))

/-- Reading a key other than that of a middle entry ignores the entry. -/
theorem get_middle_of_ne (a b : Values) (key k : GoString) (vs ws : List GoString)
    (h : k ≠ key) :
    Values.get (a ++ [(key, vs)] ++ b) k = Values.get (a ++ [(key, ws)] ++ b) k := by
  have hne : (k == key) = false := by simpa using h
  unfold Values.get
  congr 1
  induction a with
  | nil => simp [List.lookup, hne]
  | cons e a ih =>
    obtain ⟨c, d⟩ := e
    by_cases hkc : k = c
    · subst hkc
      simp [List.lookup]
    · have hne2 : (k == c) = false := by simpa using hkc
      simp only [List.cons_append, List.lookup, hne2]
      simpa using ih
/-- The canonical encoding after the keys up to `key` and the values of `key`
up to `x` were written, when `x` is one value of `key`. -/
theorem Encode_split (p : Values) (key : GoString)
    (vs1 vs2 : List GoString) (x : GoString) (S1 S2 : List GoString)
    (hS : sortStrings (Values.keys p) = S1 ++ key :: S2)
    (hget : Values.get p key = vs1 ++ [x] ++ vs2) :
    Encode p = S2.foldl (fun buf k => (Values.get p k).foldl (Encode.write k) buf)
      (vs2.foldl (Encode.write key)
        (Encode.write key
          (vs1.foldl (Encode.write key)
            (S1.foldl (fun buf k => (Values.get p k).foldl (Encode.write k) buf) [])) x)) := by
  unfold Encode
  rw [hS, List.foldl_append, List.foldl_cons, hget, List.foldl_append, List.foldl_append,
    List.foldl_cons, List.foldl_nil]

/-- Replacing one value of one key by a different value changes the canonical
encoding of a map. -/
theorem Encode_ne_of_value_change (a b : Values) (key : GoString)
    (vs1 vs2 : List GoString) (x x' : GoString)
    (hnd : (Values.keys (a ++ [(key, vs1 ++ [x] ++ vs2)] ++ b)).Nodup) (hx : x ≠ x') :
    Encode (a ++ [(key, vs1 ++ [x] ++ vs2)] ++ b)
      ≠ Encode (a ++ [(key, vs1 ++ [x'] ++ vs2)] ++ b) := by
  have hkeys : Values.keys (a ++ [(key, vs1 ++ [x'] ++ vs2)] ++ b)
      = Values.keys (a ++ [(key, vs1 ++ [x] ++ vs2)] ++ b) := by
    simp [Values.keys]
  have hnd' : (Values.keys (a ++ [(key, vs1 ++ [x'] ++ vs2)] ++ b)).Nodup := by
    rw [hkeys]; exact hnd
  have hperm : (sortStrings (Values.keys (a ++ [(key, vs1 ++ [x] ++ vs2)] ++ b))).Perm
      (Values.keys (a ++ [(key, vs1 ++ [x] ++ vs2)] ++ b)) :=
    List.perm_insertionSort _ _
  have hmem : key ∈ sortStrings (Values.keys (a ++ [(key, vs1 ++ [x] ++ vs2)] ++ b)) := by
    apply hperm.symm.subset
    simp [Values.keys]
  obtain ⟨S1, S2, hS⟩ := List.append_of_mem hmem
  have hSnd : (S1 ++ key :: S2).Nodup := by
    rw [← hS]; exact hperm.nodup_iff.2 hnd
  have hk1 : key ∉ S1 := fun h =>
    (List.nodup_append.1 hSnd).2.2 h (List.mem_cons_self _ _)
  have hk2 : key ∉ S2 := (List.nodup_cons.1 (List.nodup_append.1 hSnd).2.1).1
  have hget : Values.get (a ++ [(key, vs1 ++ [x] ++ vs2)] ++ b) key = vs1 ++ [x] ++ vs2 := by
    unfold Values.get
    rw [lookup_eq_some_of_mem _ hnd key (vs1 ++ [x] ++ vs2) (by simp)]
    rfl
  have hget' : Values.get (a ++ [(key, vs1 ++ [x'] ++ vs2)] ++ b) key = vs1 ++ [x'] ++ vs2 := by
    unfold Values.get
    rw [lookup_eq_some_of_mem _ hnd' key (vs1 ++ [x'] ++ vs2) (by simp)]
    rfl
  have hS' : sortStrings (Values.keys (a ++ [(key, vs1 ++ [x'] ++ vs2)] ++ b))
      = S1 ++ key :: S2 := by
    rw [hkeys]; exact hS
  have hc1 := foldl_keys_congr (a ++ [(key, vs1 ++ [x'] ++ vs2)] ++ b)
    (a ++ [(key, vs1 ++ [x] ++ vs2)] ++ b) S1 []
    (fun k hk => get_middle_of_ne a b key k _ _ (fun h => hk1 (h ▸ hk)))
  have hc2 := fun buf => foldl_keys_congr (a ++ [(key, vs1 ++ [x'] ++ vs2)] ++ b)
    (a ++ [(key, vs1 ++ [x] ++ vs2)] ++ b) S2 buf
    (fun k hk => get_middle_of_ne a b key k _ _ (fun h => hk2 (h ▸ hk)))
  rw [Encode_split _ key vs1 vs2 x S1 S2 hS hget,
    Encode_split _ key vs1 vs2 x' S1 S2 hS' hget', hc1, hc2]
  obtain ⟨t1, ht1⟩ := foldl_write_tail key vs2
  obtain ⟨t2, ht2⟩ := foldl_keys_tail (a ++ [(key, vs1 ++ [x] ++ vs2)] ++ b) S2
  rw [ht1 _ (write_ne_nil _ _ _), ht1 _ (write_ne_nil _ _ _),
    ht2 _ (by simp [write_ne_nil]), ht2 _ (by simp [write_ne_nil]),
    write_eq_append key _ x, write_eq_append key _ x']
  intro h
  simp only [List.append_assoc] at h
  have h2 := List.append_cancel_left (List.append_cancel_left (List.append_cancel_left h))
  have h3 := List.append_cancel_right h2
  exact hx (QueryEscape_injective x x' h3)

/-- A write never leaves a `&` at the end of the buffer. -/
theorem write_getLast (key buf value : GoString) :
    (Encode.write key buf value).getLast? ≠ some 38 := by
  have h1 : Encode.write key buf value
      = ((if buf.length > 0 then buf ++ [38] else buf) ++ QueryEscape key)
        ++ ([61] ++ QueryEscape value) := by
    simp [Encode.write]
  rw [h1, List.getLast?_append_of_ne_nil _ (by simp)]
  intro h
  have hmem := List.mem_of_getLast?_eq_some h
  rcases List.mem_append.1 hmem with h2 | h2
  · revert h2
    decide
  · exact QueryEscape_no_amp value h2

/-- Writing the values of one key never leaves a `&` at the end of the buffer. -/
theorem foldl_write_getLast (key : GoString) (vals : List GoString) (buf : GoString)
    (h : buf.getLast? ≠ some 38) : (vals.foldl (Encode.write key) buf).getLast? ≠ some 38 := by
  induction vals generalizing buf with
  | nil => exact h
  | cons x vals ih => exact ih _ (write_getLast key buf x)

/-- The canonical encoding never ends in `&`. -/
theorem Encode_getLast (v : Values) : (Encode v).getLast? ≠ some 38 := by
  unfold Encode
  generalize sortStrings (Values.keys v) = ks
  have key : ∀ (ks : List GoString) (buf : GoString), buf.getLast? ≠ some 38 →
      (ks.foldl (fun buf k => (Values.get v k).foldl (Encode.write k) buf) buf).getLast?
        ≠ some 38 := by
    intro ks
    induction ks with
    | nil => exact fun buf h => h
    | cons k ks ih => exact fun buf h => ih _ (foldl_write_getLast k _ buf h)
  exact key ks [] (by simp)

/-- The signature of a parameter map is the hexadecimal SHA-1 digest of the
action, the canonical encoding and the secret: nothing is cut off. -/
theorem checksum_Encode {URL : Type} (b3 : BigBlueButton URL) (action : GoString) (v : Values) :
    checksum b3 action (Encode v) = hex (sha1.Sum (action ++ Encode v ++ b3.Secret)) := by
  apply checksum_eq
  rintro ⟨h1, h2⟩
  have hne : Encode v ≠ [] := by
    intro h0
    rw [h0] at h1
    simp at h1
  apply Encode_getLast v
  rw [getD_pred_length _ hne]
  have : (((Encode v).length : Int) - 1).toNat = (Encode v).length - 1 := by omega
  rw [this] at h2
  rw [h2]

/-- The digest has 20 bytes. -/
theorem Sum_length (msg : GoString) : (sha1.Sum msg).length = 20 := rfl

/-- Infinitely many strings share finitely many digests: two different
strings of the letter `a` have the same SHA-1 digest behind any fixed
beginning and before any fixed end. -/
theorem sha1_collision (pre post : GoString) :
    ∃ n m : Nat, n ≠ m ∧
      sha1.Sum (pre ++ List.replicate n (97 : Byte) ++ post)
        = sha1.Sum (pre ++ List.replicate m (97 : Byte) ++ post) := by
  obtain ⟨n, m, hnm, h⟩ := @Finite.exists_ne_map_eq_of_infinite Nat (Mathlib.Vector Byte 20) _ _
    (fun n : Nat => ⟨sha1.Sum (pre ++ List.replicate n (97 : Byte) ++ post), Sum_length _⟩)
  exact ⟨n, m, hnm, congrArg Subtype.val h⟩

/-- A string of letters is its own escape. -/
theorem QueryEscape_replicate_a (n : Nat) :
    QueryEscape (List.replicate n (97 : Byte)) = List.replicate n (97 : Byte) := by
  induction n with
  | zero => rfl
  | succ n ih =>
    have h : QueryEscape ((97 : Byte) :: List.replicate n 97)
        = escapeByte 97 ++ QueryEscape (List.replicate n 97) := by
      simp [QueryEscape]
    rw [List.replicate_succ, h, ih]
    rfl

/-- The canonical encoding of a map with one key and one value. -/
theorem Encode_single (key value : GoString) :
    Encode [(key, [value])] = QueryEscape key ++ [61] ++ QueryEscape value := by
  simp [Encode, sortStrings, Values.keys, Values.get, List.lookup, Encode.write]

/-! ### C2: what a changed value changes -/

/-- The three concrete facts of C2: the signatures of `create` with secret
`s3cr3t` for meetingID 42 and for meetingID 43 are two fixed strings, and they
differ. -/
theorem checksum_create_42_43 :
    checksum (⟨str "s3cr3t", ()⟩ : BigBlueButton Unit) (str "create")
        (Encode [(str "meetingID", [str "42"])])
      = str "ecbcc1b594f369aced70148a0d8876fa6fd72b0d" ∧
    checksum (⟨str "s3cr3t", ()⟩ : BigBlueButton Unit) (str "create")
        (Encode [(str "meetingID", [str "43"])])
      = str "e85f72416c77c563e1fc167f2467e9d5f9a15a45" ∧
    checksum (⟨str "s3cr3t", ()⟩ : BigBlueButton Unit) (str "create")
        (Encode [(str "meetingID", [str "42"])])
      ≠ checksum (⟨str "s3cr3t", ()⟩ : BigBlueButton Unit) (str "create")
        (Encode [(str "meetingID", [str "43"])]) := by
  decide

/-- C2, as the code has it: replacing one value of one parameter by a
different value changes the canonical encoding, hence the string whose SHA-1
digest in hexadecimal is the signature (action, encoding, secret; nothing is
cut off an encoding); the two signatures are digests of two different
strings. For action `create`, secret `s3cr3t` and meetingID 42 against 43 the
signatures are the two fixed, different strings below. -/
theorem C2_value_change_changes_signed_string {URL : Type} (b3 : BigBlueButton URL)
    (action : GoString) (a b : Values) (key : GoString) (vs1 vs2 : List GoString)
    (x x' : GoString)
    (hnd : (Values.keys (a ++ [(key, vs1 ++ [x] ++ vs2)] ++ b)).Nodup) (hx : x ≠ x') :
    Encode (a ++ [(key, vs1 ++ [x] ++ vs2)] ++ b) ≠ Encode (a ++ [(key, vs1 ++ [x'] ++ vs2)] ++ b) ∧
    checksum b3 action (Encode (a ++ [(key, vs1 ++ [x] ++ vs2)] ++ b))
      = hex (sha1.Sum (action ++ Encode (a ++ [(key, vs1 ++ [x] ++ vs2)] ++ b) ++ b3.Secret)) ∧
    checksum b3 action (Encode (a ++ [(key, vs1 ++ [x'] ++ vs2)] ++ b))
      = hex (sha1.Sum (action ++ Encode (a ++ [(key, vs1 ++ [x'] ++ vs2)] ++ b) ++ b3.Secret)) ∧
    action ++ Encode (a ++ [(key, vs1 ++ [x] ++ vs2)] ++ b) ++ b3.Secret
      ≠ action ++ Encode (a ++ [(key, vs1 ++ [x'] ++ vs2)] ++ b) ++ b3.Secret ∧
    checksum (⟨str "s3cr3t", ()⟩ : BigBlueButton Unit) (str "create")
        (Encode [(str "meetingID", [str "42"])])
      = str "ecbcc1b594f369aced70148a0d8876fa6fd72b0d" ∧
    checksum (⟨str "s3cr3t", ()⟩ : BigBlueButton Unit) (str "create")
        (Encode [(str "meetingID", [str "43"])])
      = str "e85f72416c77c563e1fc167f2467e9d5f9a15a45" ∧
    checksum (⟨str "s3cr3t", ()⟩ : BigBlueButton Unit) (str "create")
        (Encode [(str "meetingID", [str "42"])])
      ≠ checksum (⟨str "s3cr3t", ()⟩ : BigBlueButton Unit) (str "create")
        (Encode [(str "meetingID", [str "43"])]) := by
  have hE := Encode_ne_of_value_change a b key vs1 vs2 x x' hnd hx
  refine ⟨hE, checksum_Encode b3 action _, checksum_Encode b3 action _, ?_,
    checksum_create_42_43⟩
  intro h
  have h2 := (List.append_assoc _ _ _).symm.trans (h.trans (List.append_assoc _ _ _))
  exact hE (List.append_cancel_right (List.append_cancel_left h2))

/-- Witness of C2: meetingID 42 replaced by 43 in a create call. -/
theorem C2_value_change_changes_signed_string_witness :
    (Values.keys ([] ++ [(str "meetingID", [] ++ [str "42"] ++ [])] ++ [])).Nodup ∧ str "42" ≠ str "43" ∧
    Encode ([] ++ [(str "meetingID", [] ++ [str "42"] ++ [])] ++ []) ≠ Encode ([] ++ [(str "meetingID", [] ++ [str "43"] ++ [])] ++ []) ∧
    checksum (⟨str "s3cr3t", ()⟩ : BigBlueButton Unit) (str "create") (Encode ([] ++ [(str "meetingID", [] ++ [str "42"] ++ [])] ++ []))
      = hex (sha1.Sum ((str "create") ++ Encode ([] ++ [(str "meetingID", [] ++ [str "42"] ++ [])] ++ []) ++ (⟨str "s3cr3t", ()⟩ : BigBlueButton Unit).Secret)) ∧
    checksum (⟨str "s3cr3t", ()⟩ : BigBlueButton Unit) (str "create") (Encode ([] ++ [(str "meetingID", [] ++ [str "43"] ++ [])] ++ []))
      = hex (sha1.Sum ((str "create") ++ Encode ([] ++ [(str "meetingID", [] ++ [str "43"] ++ [])] ++ []) ++ (⟨str "s3cr3t", ()⟩ : BigBlueButton Unit).Secret)) ∧
    (str "create") ++ Encode ([] ++ [(str "meetingID", [] ++ [str "42"] ++ [])] ++ []) ++ (⟨str "s3cr3t", ()⟩ : BigBlueButton Unit).Secret
      ≠ (str "create") ++ Encode ([] ++ [(str "meetingID", [] ++ [str "43"] ++ [])] ++ []) ++ (⟨str "s3cr3t", ()⟩ : BigBlueButton Unit).Secret ∧
    checksum (⟨str "s3cr3t", ()⟩ : BigBlueButton Unit) (str "create")
        (Encode [(str "meetingID", [str "42"])])
      = str "ecbcc1b594f369aced70148a0d8876fa6fd72b0d" ∧
    checksum (⟨str "s3cr3t", ()⟩ : BigBlueButton Unit) (str "create")
        (Encode [(str "meetingID", [str "43"])])
      = str "e85f72416c77c563e1fc167f2467e9d5f9a15a45" ∧
    checksum (⟨str "s3cr3t", ()⟩ : BigBlueButton Unit) (str "create")
        (Encode [(str "meetingID", [str "42"])])
      ≠ checksum (⟨str "s3cr3t", ()⟩ : BigBlueButton Unit) (str "create")
        (Encode [(str "meetingID", [str "43"])]) :=
  ⟨by decide, by decide,
    C2_value_change_changes_signed_string (⟨str "s3cr3t", ()⟩ : BigBlueButton Unit) (str "create") [] []
      (str "meetingID") [] [] (str "42") (str "43") (by decide) (by decide)⟩

/-- C2 fails as stated: signatures are 20-byte digests, so among the
signatures of `create` with secret `s3cr3t` and one meetingID value there are
two equal ones for two different values. -/
theorem C2_counterexample :
    ∃ x x' : GoString, x ≠ x' ∧
      checksum (⟨str "s3cr3t", ()⟩ : BigBlueButton Unit) (str "create") (Encode [(str "meetingID", [x])])
        = checksum (⟨str "s3cr3t", ()⟩ : BigBlueButton Unit) (str "create") (Encode [(str "meetingID", [x'])]) := by
  obtain ⟨n, m, hnm, h⟩ := sha1_collision
    (str "create" ++ (QueryEscape (str "meetingID") ++ [61])) (str "s3cr3t")
  refine ⟨List.replicate n 97, List.replicate m 97, ?_, ?_⟩
  · intro h2
    apply hnm
    have h3 := congrArg List.length h2
    simpa using h3
  · rw [checksum_Encode, checksum_Encode, Encode_single, Encode_single,
      QueryEscape_replicate_a, QueryEscape_replicate_a]
    simp only [List.append_assoc] at h ⊢
    rw [h]

/-! ### C6: terminate and confirm -/

/-- The loop of `End` when every pass left polls without an error: all passes
are made, each followed by a sleep, and the loop ends without success. -/
theorem End_loop_all_ok (infoErr : Nat → Bool) (n r : Nat)
    (h : ∀ i, r ≤ i → i < r + n → infoErr i = false) :
    End.loop infoErr n r
      = (false, (List.range' r n).flatMap fun i => [EndStep.Poll i, EndStep.Sleep 2]) := by
  induction n generalizing r with
  | zero => rfl
  | succ n ih =>
    have h0 : infoErr r = false := h r (le_refl _) (by omega)
    have ih2 := ih (r + 1) (fun i h1 h2 => h i (by omega) (by omega))
    simp [End.loop, h0, ih2, List.range'_succ]

/-- The loop of `End` when the first erroring poll is the one numbered `j`. -/
theorem End_loop_first_err (infoErr : Nat → Bool) (n r j : Nat) (hj : r ≤ j) (hjn : j < r + n)
    (herr : infoErr j = true) (h : ∀ i, r ≤ i → i < j → infoErr i = false) :
    End.loop infoErr n r
      = (true, ((List.range' r (j - r)).flatMap fun i => [EndStep.Poll i, EndStep.Sleep 2])
          ++ [EndStep.Poll j]) := by
  induction n generalizing r with
  | zero => omega
  | succ n ih =>
    by_cases hrj : r = j
    · subst hrj
      simp [End.loop, herr]
    · have h0 : infoErr r = false := h r (le_refl _) (by omega)
      have ih2 := ih (r + 1) (by omega) (by omega) (fun i h1 h2 => h i (by omega) h2)
      have hsub : j - r = (j - (r + 1)) + 1 := by omega
      simp [End.loop, h0, ih2, hsub, List.range'_succ]

/-- The polls among passes that each poll and sleep. -/
theorem polls_flatMap (xs : List Nat) :
    polls (xs.flatMap fun i => [EndStep.Poll i, EndStep.Sleep 2]) = xs := by
  induction xs with
  | nil => rfl
  | cons x xs ih =>
    simp only [polls, List.flatMap_cons, List.filterMap_append] at ih ⊢
    rw [ih]
    simp

/-- C6: method `End` on given outcomes of the terminate request and of the
successive `MeetingInfo` polls. It returns true exactly when the terminate
request did not fail and one of the first 10 polls errs; it never polls more
than 10 times; after a failed terminate request it polls zero times and
returns false; it stops at the first erroring poll, having slept 2 seconds
after each poll before it; when all 10 polls succeed it sleeps after each and
returns false; and with a poll that errs on the 3rd attempt only it returns
true after exactly 3 polls. -/
theorem C6_End_terminate_and_confirm (getErr : Bool) (infoErr : Nat → Bool) :
    ((End getErr infoErr).1 = true ↔ getErr = false ∧ ∃ i, i < 10 ∧ infoErr i = true) ∧
    (polls (End getErr infoErr).2).length ≤ 10 ∧
    (getErr = true → End getErr infoErr = (false, [EndStep.Terminate])) ∧
    (∀ j, getErr = false → j < 10 → infoErr j = true → (∀ i, i < j → infoErr i = false) →
      End getErr infoErr
        = (true, EndStep.Terminate ::
            (((List.range j).flatMap fun i => [EndStep.Poll i, EndStep.Sleep 2])
              ++ [EndStep.Poll j]))) ∧
    (getErr = false → (∀ i, i < 10 → infoErr i = false) →
      End getErr infoErr
        = (false, EndStep.Terminate ::
            ((List.range 10).flatMap fun i => [EndStep.Poll i, EndStep.Sleep 2]))) ∧
    End false (fun i => i == 2)
      = (true, [EndStep.Terminate, EndStep.Poll 0, EndStep.Sleep 2, EndStep.Poll 1,
          EndStep.Sleep 2, EndStep.Poll 2]) := by
  have hfirst : ∀ j, getErr = false → j < 10 → infoErr j = true →
      (∀ i, i < j → infoErr i = false) →
      End getErr infoErr
        = (true, EndStep.Terminate ::
            (((List.range j).flatMap fun i => [EndStep.Poll i, EndStep.Sleep 2])
              ++ [EndStep.Poll j])) := by
    intro j hg hj herr hbefore
    have hl := End_loop_first_err infoErr 10 0 j (Nat.zero_le _) (by omega) herr
      (fun i _ h2 => hbefore i h2)
    simp [End, hg, hl, List.range_eq_range']
  have hall : getErr = false → (∀ i, i < 10 → infoErr i = false) →
      End getErr infoErr
        = (false, EndStep.Terminate ::
            ((List.range 10).flatMap fun i => [EndStep.Poll i, EndStep.Sleep 2])) := by
    intro hg hok
    have hl := End_loop_all_ok infoErr 10 0 (fun i _ h2 => hok i (by omega))
    simp [End, hg, hl, List.range_eq_range']
  have hfail : getErr = true → End getErr infoErr = (false, [EndStep.Terminate]) := by
    intro hg
    simp [End, hg]
  have hcases : getErr = true ∨ (getErr = false ∧ ∀ i, i < 10 → infoErr i = false) ∨
      (getErr = false ∧ ∃ j, j < 10 ∧ infoErr j = true ∧ ∀ i, i < j → infoErr i = false) := by
    cases getErr with
    | true => exact Or.inl rfl
    | false =>
      right
      by_cases hex : ∃ j, j < 10 ∧ infoErr j = true
      · right
        refine ⟨rfl, Nat.find hex, (Nat.find_spec hex).1, (Nat.find_spec hex).2, ?_⟩
        intro i hi
        have hmin := Nat.find_min hex hi
        have hlt : i < 10 := lt_trans hi (Nat.find_spec hex).1
        cases hb : infoErr i with
        | false => rfl
        | true => exact absurd ⟨hlt, hb⟩ hmin
      · left
        refine ⟨rfl, fun i hi => ?_⟩
        cases hb : infoErr i with
        | false => rfl
        | true => exact absurd ⟨i, hi, hb⟩ hex
  refine ⟨?_, ?_, hfail, hfirst, hall, by decide⟩
  · rcases hcases with hg | ⟨hg, hok⟩ | ⟨hg, j, hj, herr, hbefore⟩
    · rw [hfail hg]
      simp [hg]
    · rw [hall hg hok]
      simp only [hg, true_and, Bool.false_eq_true, false_iff, not_exists, not_and]
      intro i hi
      simp [hok i hi]
    · rw [hfirst j hg hj herr hbefore]
      simp only [hg, true_and, true_iff]
      exact ⟨j, hj, herr⟩
  · rcases hcases with hg | ⟨hg, hok⟩ | ⟨hg, j, hj, herr, hbefore⟩
    · rw [hfail hg]
      decide
    · rw [hall hg hok]
      decide
    · rw [hfirst j hg hj herr hbefore]
      have hp := polls_flatMap (List.range j)
      have hp2 : polls (EndStep.Terminate ::
          (((List.range j).flatMap fun i => [EndStep.Poll i, EndStep.Sleep 2])
            ++ [EndStep.Poll j])) = List.range j ++ [j] := by
        simp only [polls, List.filterMap_append, List.filterMap_cons] at hp ⊢
        rw [hp]
        simp
      rw [hp2]
      simp
      omega

/-- Witness of C6: a failed terminate request; a poll erring on its 3rd
attempt; and ten polls without an error. -/
theorem C6_End_terminate_and_confirm_witness :
    End true (fun _ => false) = (false, [EndStep.Terminate]) ∧
    End false (fun i => i == 2)
      = (true, EndStep.Terminate ::
          (((List.range 2).flatMap fun i => [EndStep.Poll i, EndStep.Sleep 2])
            ++ [EndStep.Poll 2])) ∧
    End false (fun _ => false)
      = (false, EndStep.Terminate ::
          ((List.range 10).flatMap fun i => [EndStep.Poll i, EndStep.Sleep 2])) :=
  ⟨(C6_End_terminate_and_confirm true (fun _ => false)).2.2.1 rfl,
   (C6_End_terminate_and_confirm false (fun i => i == 2)).2.2.2.1 2 rfl (by decide) (by decide)
     (by decide),
   (C6_End_terminate_and_confirm false (fun _ => false)).2.2.2.2.1 rfl (fun _ _ => rfl)⟩

/-! ### C7: dispatch -/

/-- C7: method `Handle`. When the name of the event is no key of the handler
map, no handler runs: the state is unchanged and the result is the
`WsEventHandlerNotFound` error of exactly that name, whose message is
`Event Handler '<name>' not found!`. When the name is a key, the result and
the state are exactly those of one call of the handler stored under it, on
the same client and event. -/
theorem C7_Handle_dispatch {σ : Type} (h : List (GoString × WsEventHandlerFunc σ))
    (c : ClientPtr) (ev : WsEvent) (s : σ) :
    (h.lookup ev.Event = none →
      Handle h c ev s = (some (error.WsEventHandlerNotFound ev.Event), s) ∧
      (error.WsEventHandlerNotFound ev.Event).Error
        = str "Event Handler '" ++ ev.Event ++ str "' not found!") ∧
    (∀ f, h.lookup ev.Event = some f → Handle h c ev s = f c ev s) := by
  constructor
  · intro hl
    exact ⟨by simp [Handle, hl, newWsEventHandlerNotFound], rfl⟩
  · intro f hl
    simp [Handle, hl]

/-- Witness of C7: with the handlers of ws.go, an event named `bogus` is not
found and an event named `create` is handled by the handler of `create`. -/
theorem C7_Handle_dispatch_witness :
    (Handle (handler.h Nat) 7 ⟨str "bogus", []⟩ 0
        = (some (error.WsEventHandlerNotFound (str "bogus")), 0) ∧
      (error.WsEventHandlerNotFound (str "bogus")).Error
        = str "Event Handler '" ++ str "bogus" ++ str "' not found!") ∧
    Handle (handler.h Nat) 7 ⟨str "create", []⟩ 0 = HandleNil 7 ⟨str "create", []⟩ 0 :=
  ⟨(C7_Handle_dispatch (handler.h Nat) 7 ⟨str "bogus", []⟩ 0).1 rfl,
   (C7_Handle_dispatch (handler.h Nat) 7 ⟨str "create", []⟩ 0).2 HandleNil rfl⟩

/-! ### C8, C9: the registry -/

/-- C8: registry membership is idempotent. Adding a client twice gives the
state that adding it once gives (the same clients, as many of them, the same
`handler` field of every client); adding a client that is present changes
nothing; removing a client that is absent changes nothing. -/
theorem C8_registry_idempotent (ws : Nat) (x : ClientPtr) (s : Hub) :
    AddClient ws x (AddClient ws x s) = AddClient ws x s ∧
    (AddClient ws x (AddClient ws x s)).c.length = (AddClient ws x s).c.length ∧
    (x ∈ s.c → AddClient ws x s = s) ∧
    (x ∉ s.c → RemoveClient x s = s) := by
  have h1 : x ∈ (AddClient ws x s).c := by
    unfold AddClient
    by_cases hx : x ∈ s.c
    · simp [hx]
    · simp [hx]
  have h2 : AddClient ws x (AddClient ws x s) = AddClient ws x s := by
    generalize AddClient ws x s = t at h1
    simp [AddClient, h1]
  refine ⟨h2, by rw [h2], ?_, ?_⟩
  · intro hx
    simp [AddClient, hx]
  · intro hx
    simp [RemoveClient, hx]

/-- Witness of C8: client 1 is registered, client 2 is not. -/
theorem C8_registry_idempotent_witness :
    AddClient 0 1 (AddClient 0 1 Hub.init) = AddClient 0 1 Hub.init ∧
    RemoveClient 2 (AddClient 0 1 Hub.init) = AddClient 0 1 Hub.init :=
  ⟨(C8_registry_idempotent 0 1 (AddClient 0 1 Hub.init)).2.2.1 (by decide),
   (C8_registry_idempotent 0 2 (AddClient 0 1 Hub.init)).2.2.2 (by decide)⟩

/-- The loop of `Broadcast` over any list of peers: the registry and the
`handler` fields stay, and every client gets one copy of the event for each
time it occurs in the list. -/
theorem Broadcast_loop (e : WsEvent) (l : List ClientPtr) (s : Hub) :
    (l.foldl (fun s peer =>
        { s with events := Function.update s.events peer (s.events peer ++ [e]) }) s).c = s.c ∧
    (l.foldl (fun s peer =>
        { s with events := Function.update s.events peer (s.events peer ++ [e]) }) s).handler
      = s.handler ∧
    ∀ p, (l.foldl (fun s peer =>
        { s with events := Function.update s.events peer (s.events peer ++ [e]) }) s).events p
      = s.events p ++ List.replicate (l.count p) e := by
  induction l generalizing s with
  | nil => simp
  | cons a l ih =>
    obtain ⟨h1, h2, h3⟩ := ih
      { s with events := Function.update s.events a (s.events a ++ [e]) }
    refine ⟨h1, h2, fun p => ?_⟩
    rw [List.foldl_cons, h3 p]
    by_cases hpa : p = a
    · subst hpa
      simp [List.replicate_succ]
    · have hap : ¬ a = p := fun h => hpa h.symm
      simp [Function.update, hpa, hap, List.count_cons]

/-- Adding a client keeps the keys of the registry pairwise different. -/
theorem AddClient_nodup (ws : Nat) (x : ClientPtr) (s : Hub) (h : s.c.Nodup) :
    (AddClient ws x s).c.Nodup := by
  unfold AddClient
  by_cases hx : x ∈ s.c
  · simpa [hx] using h
  · simp only [hx, if_false]
    refine List.Nodup.append h (List.nodup_singleton _) ?_
    intro a ha hb
    rw [List.mem_singleton] at hb
    subst hb
    exact hx ha

/-- A client is registered after it was added, and stays so when others are. -/
theorem mem_AddClient (ws : Nat) (x y : ClientPtr) (s : Hub) :
    y ∈ (AddClient ws x s).c ↔ y = x ∨ y ∈ s.c := by
  unfold AddClient
  by_cases hx : x ∈ s.c
  · simp only [hx, if_true]
    constructor
    · exact Or.inr
    · rintro (h | h)
      · rw [h]; exact hx
      · exact h
  · simp only [hx, if_false, List.mem_append, List.mem_singleton]
    exact or_comm

/-- Adding a client sends nothing. -/
theorem AddClient_events (ws : Nat) (x : ClientPtr) (s : Hub) :
    (AddClient ws x s).events = s.events := by
  unfold AddClient
  by_cases hx : x ∈ s.c <;> simp [hx]

/-- C9: broadcast completeness, every send being accepted. For a registry with
pairwise different clients, `Broadcast` returns nil, leaves the registry and
the `handler` fields unchanged, appends exactly one copy of the event to the
queue of every registered client, and leaves the queue of every other client
alone. In particular, after clients A and B were added, a broadcast appends
exactly one copy to the queue of A and one to the queue of B; starting from
the empty registry both queues then hold exactly the event. -/
theorem C9_broadcast_completeness (e : WsEvent) (s : Hub) (hnd : s.c.Nodup) :
    (Broadcast e s).1 = none ∧
    (Broadcast e s).2.c = s.c ∧
    (Broadcast e s).2.handler = s.handler ∧
    (∀ p, p ∈ s.c → (Broadcast e s).2.events p = s.events p ++ [e]) ∧
    (∀ p, p ∉ s.c → (Broadcast e s).2.events p = s.events p) ∧
    (∀ ws A B,
      (Broadcast e (AddClient ws B (AddClient ws A s))).2.events A = s.events A ++ [e] ∧
      (Broadcast e (AddClient ws B (AddClient ws A s))).2.events B = s.events B ++ [e]) ∧
    (∀ ws A B,
      (Broadcast e (AddClient ws B (AddClient ws A Hub.init))).2.events A = [e] ∧
      (Broadcast e (AddClient ws B (AddClient ws A Hub.init))).2.events B = [e]) := by
  have key : ∀ t : Hub, t.c.Nodup →
      (∀ p, p ∈ t.c → (Broadcast e t).2.events p = t.events p ++ [e]) ∧
      (∀ p, p ∉ t.c → (Broadcast e t).2.events p = t.events p) := by
    intro t ht
    obtain ⟨_, _, h3⟩ := Broadcast_loop e t.c t
    constructor
    · intro p hp
      show (t.c.foldl _ t).events p = _
      rw [h3 p, List.count_eq_one_of_mem ht hp]
      rfl
    · intro p hp
      show (t.c.foldl _ t).events p = _
      rw [h3 p, List.count_eq_zero_of_not_mem hp]
      simp
  have two : ∀ (t : Hub), t.c.Nodup → ∀ ws A B,
      (Broadcast e (AddClient ws B (AddClient ws A t))).2.events A = t.events A ++ [e] ∧
      (Broadcast e (AddClient ws B (AddClient ws A t))).2.events B = t.events B ++ [e] := by
    intro t ht ws A B
    have hnd2 := AddClient_nodup ws B _ (AddClient_nodup ws A t ht)
    have hA : A ∈ (AddClient ws B (AddClient ws A t)).c :=
      (mem_AddClient ws B A _).2 (Or.inr ((mem_AddClient ws A A t).2 (Or.inl rfl)))
    have hB : B ∈ (AddClient ws B (AddClient ws A t)).c :=
      (mem_AddClient ws B B _).2 (Or.inl rfl)
    have hev : (AddClient ws B (AddClient ws A t)).events = t.events := by
      rw [AddClient_events, AddClient_events]
    rw [(key _ hnd2).1 A hA, (key _ hnd2).1 B hB, hev]
    exact ⟨rfl, rfl⟩
  obtain ⟨h1, h2, _⟩ := Broadcast_loop e s.c s
  refine ⟨rfl, h1, h2, (key s hnd).1, (key s hnd).2, two s hnd, ?_⟩
  intro ws A B
  have := two Hub.init List.nodup_nil ws A B
  simpa [Hub.init] using this

/-- Witness of C9: clients 1 and 2 registered, client 3 not. -/
theorem C9_broadcast_completeness_witness :
    (AddClient 0 2 (AddClient 0 1 Hub.init)).c.Nodup ∧
    (Broadcast ⟨str "end", []⟩ (AddClient 0 2 (AddClient 0 1 Hub.init))).2.events 1
      = (AddClient 0 2 (AddClient 0 1 Hub.init)).events 1 ++ [⟨str "end", []⟩] ∧
    (Broadcast ⟨str "end", []⟩ (AddClient 0 2 (AddClient 0 1 Hub.init))).2.events 3
      = (AddClient 0 2 (AddClient 0 1 Hub.init)).events 3 :=
  ⟨by decide,
   (C9_broadcast_completeness ⟨str "end", []⟩ (AddClient 0 2 (AddClient 0 1 Hub.init))
     (by decide)).2.2.2.1 1 (by decide),
   (C9_broadcast_completeness ⟨str "end", []⟩ (AddClient 0 2 (AddClient 0 1 Hub.init))
     (by decide)).2.2.2.2.1 3 (by decide)⟩

/-! ### C10: the reader loop -/

/-- The termination signal of `Reader`: it is sent once when an end of stream
is among the outcomes and never otherwise, and the method has returned
exactly when it was sent. -/
theorem Reader_done {σ : Type} (h : List (GoString × WsEventHandlerFunc σ))
    (address : GoString) (c : ClientPtr) (outs : List Received) (s : ReaderState σ) :
    (Reader h address c outs s).done
      = s.done + (if (some error.EOF) ∈ outs.map Prod.fst then 1 else 0) ∧
    ((Reader h address c outs s).returned
      = (s.returned || decide ((some error.EOF) ∈ outs.map Prod.fst))) := by
  induction outs generalizing s with
  | nil => simp [Reader]
  | cons o outs ih =>
    obtain ⟨err, ev⟩ := o
    by_cases he : err = some error.EOF
    · subst he
      simp [Reader]
    · have hne : ¬ some error.EOF = err := fun h2 => he h2.symm
      unfold Reader
      simp only [he, if_false, List.map_cons, List.mem_cons, hne, false_or]
      cases hr : (Handle h c ev s.world).1 with
      | none => exact ih _
      | some e2 => exact ih _

/-- A decode error other than the end of stream is dropped: `Reader` goes on
exactly as after a `Receive` without an error, dispatching whatever `ev` holds. -/
theorem Reader_decode_error_dropped {σ : Type} (h : List (GoString × WsEventHandlerFunc σ))
    (address : GoString) (c : ClientPtr) (e : error) (ev : WsEvent) (rest : List Received)
    (s : ReaderState σ) (he : e ≠ error.EOF) :
    Reader h address c ((some e, ev) :: rest) s = Reader h address c ((none, ev) :: rest) s := by
  have h1 : ¬ (some e = some error.EOF) := fun h2 => he (Option.some.inj h2)
  simp [Reader, h1]

/-- C10 at the failing input, a decode error followed by the end of stream,
with the handlers of ws.go: the decode error is on no line of the log. What
is logged for it is the failed dispatch of the empty event, then comes the
end of stream with its one termination signal. -/
theorem C10_Reader_decode_error_eval :
    (Reader (handler.h Unit) (str "10.0.0.1:5000") 1
      [(some (error.other (str "invalid character")), ⟨[], []⟩), (some error.EOF, ⟨[], []⟩)]
      ⟨(), [], 0, false⟩).log
      = [str "Reader[10.0.0.1:5000]: Event Handler '' not found!",
         str "Reader[10.0.0.1:5000]: EOF"] ∧
    (Reader (handler.h Unit) (str "10.0.0.1:5000") 1
      [(some (error.other (str "invalid character")), ⟨[], []⟩), (some error.EOF, ⟨[], []⟩)]
      ⟨(), [], 0, false⟩).done = 1 ∧
    (Reader (handler.h Unit) (str "10.0.0.1:5000") 1
      [(some (error.other (str "invalid character")), ⟨[], []⟩), (some error.EOF, ⟨[], []⟩)]
      ⟨(), [], 0, false⟩).returned = true := by
  decide

/-! ### C5: the requests of the operations -/

/-- A map write keeps the keys and adds at most the key written. -/
theorem keys_put (m : Values) (k : GoString) (vs : List GoString) :
    Values.keys (Values.put m k vs)
      = if Values.has m k then Values.keys m else Values.keys m ++ [k] := by
  unfold Values.put
  by_cases h : Values.has m k = true
  · simp only [h, if_true, Values.keys, List.map_map]
    apply List.map_congr_left
    intro e _
    by_cases he : e.1 = k
    · simp [he]
    · simp [he]
  · simp [h, Values.keys]

/-- Presence of a key, as membership among the keys. -/
theorem has_eq_true_iff (v : Values) (k : GoString) :
    Values.has v k = true ↔ k ∈ Values.keys v := by
  have h := has_eq_false_iff v k
  cases hb : Values.has v k with
  | true =>
    rw [hb] at h
    simp only [true_iff]
    by_contra hn
    exact absurd (h.2 hn) (by simp)
  | false =>
    rw [hb] at h
    simp only [Bool.false_eq_true, false_iff]
    exact h.1 rfl

/-- The keys of a merged map are keys of the maps merged. -/
theorem keys_mergeUrlValues (a b : Values) (k : GoString)
    (h : k ∈ Values.keys (mergeUrlValues [a, b])) : k ∈ Values.keys a ∨ k ∈ Values.keys b := by
  have step : ∀ (v m : Values), k ∈ Values.keys (v.foldl
      (fun m kv =>
        if Values.has m kv.1 then Values.put m kv.1 (Values.get m kv.1 ++ kv.2)
        else Values.put m kv.1 kv.2) m) → k ∈ Values.keys m ∨ k ∈ Values.keys v := by
    intro v
    induction v with
    | nil => exact fun m hm => Or.inl hm
    | cons e v ih =>
      intro m hm
      rw [List.foldl_cons] at hm
      rcases ih _ hm with h1 | h1
      · have h2 : k ∈ Values.keys m ∨ k = e.1 := by
          by_cases hh : Values.has m e.1 = true
          · simp only [hh, if_true, keys_put] at h1
            exact Or.inl h1
          · simp only [hh, if_false, keys_put, List.mem_append, List.mem_singleton,
              Bool.false_eq_true] at h1
            exact h1
        rcases h2 with h2 | h2
        · exact Or.inl h2
        · right
          simp [Values.keys, h2]
      · right
        simp only [Values.keys, List.map_cons, List.mem_cons]
        exact Or.inr h1
  have h0 : mergeUrlValues [a, b] = b.foldl
      (fun m kv =>
        if Values.has m kv.1 then Values.put m kv.1 (Values.get m kv.1 ++ kv.2)
        else Values.put m kv.1 kv.2)
      (a.foldl
        (fun m kv =>
          if Values.has m kv.1 then Values.put m kv.1 (Values.get m kv.1 ++ kv.2)
          else Values.put m kv.1 kv.2) []) := rfl
  rw [h0] at h
  rcases step b _ h with h1 | h1
  · rcases step a _ h1 with h2 | h2
    · simp [Values.keys] at h2
    · exact Or.inl h2
  · exact Or.inr h1

/-- Leaving the `checksum` entry out of a map that got one appended gives the
map back. -/
theorem filter_append_checksum (v : Values) (vs : List GoString)
    (h : Values.has v (str "checksum") = false) :
    (v ++ [(str "checksum", vs)]).filter (fun e => e.1 ≠ str "checksum") = v := by
  have hk := (has_eq_false_iff v (str "checksum")).1 h
  rw [List.filter_append]
  have h1 : v.filter (fun e => e.1 ≠ str "checksum") = v := by
    apply List.filter_eq_self.2
    intro e he
    have : e.1 ≠ str "checksum" := by
      intro h2
      exact hk (List.mem_map.2 ⟨e, he, h2⟩)
    simpa using this
  rw [h1]
  simp

/-- A map without a `checksum` key leaves `makeURL` carrying the signature of
the action and of itself. -/
theorem makeURL_carriesSignature {URL : Type} (Parse : URL → GoString → Option URL)
    (b3 : BigBlueButton URL) (action : GoString) (query : Values)
    (h : Values.has query (str "checksum") = false) :
    carriesSignature b3 action (makeURL Parse b3 action query).query := by
  have hq : (makeURL Parse b3 action query).query
      = query ++ [(str "checksum", [checksum b3 action (Encode query)])] := by
    simp [makeURL, h, Add_of_not_has]
  unfold carriesSignature
  rw [hq, filter_append_checksum query _ h]
  exact lookup_append_singleton_self query _ _ h

/-- The keys that the operations write themselves are not `checksum`. -/
theorem own_keys_ne_checksum :
    str "checksum" ≠ str "meetingID" ∧ str "checksum" ≠ str "password" ∧
    str "checksum" ≠ str "fullName" ∧ str "checksum" ≠ str "configXML" ∧
    str "checksum" ≠ str "recordID" ∧ str "checksum" ≠ str "publish" := by
  decide

/-- A list of entries none of whose keys is `checksum` has no `checksum` key. -/
theorem has_checksum_false_of_keys (v : Values)
    (h : ∀ k ∈ Values.keys v, str "checksum" ≠ k) : Values.has v (str "checksum") = false :=
  (has_eq_false_iff v _).2 (fun hm => h _ hm rfl)
/-- C5, as the code has it: every operation that goes through `makeURL` or
signs by itself builds a request whose parameters carry a `checksum` field
holding the signature of the action and of the other parameters (Create and
JoinURL: when the values of the options bring no `checksum` key of their
own). ServerVersion requests `b3.Url` itself, with no parameter at all. -/
theorem C5_operations_carry_signature {URL Doc : Type} (Parse : URL → GoString → Option URL)
    (buildCreateMeetingXML : List Doc → Option GoString) (b3 : BigBlueButton URL) :
    (∀ (id : GoString) (options : OptionEncoder Doc) (r : Request URL),
      Values.has options.Values (str "checksum") = false →
      Create Parse buildCreateMeetingXML b3 id options = some r →
      carriesSignature b3 (str "create") r.values) ∧
    carriesSignature b3 (str "getDefaultConfigXML") (DefaultConfigXML Parse b3).values ∧
    (∀ (meeting configXML : GoString) (r : Request URL),
      SetConfigXML Parse b3 meeting configXML = some r →
      carriesSignature b3 (str "setConfigXML") r.values) ∧
    (∀ (name meetingID password : GoString) (options : OptionEncoder Doc),
      Values.has options.Values (str "checksum") = false →
      carriesSignature b3 (str "join")
        (JoinURL Parse b3 name meetingID password options).query) ∧
    (∀ id : GoString,
      carriesSignature b3 (str "isMeetingRunning") (IsMeetingRunning Parse b3 id).values) ∧
    (∀ id password : GoString,
      carriesSignature b3 (str "end") (End.request Parse b3 id password).values) ∧
    (∀ id password : GoString,
      carriesSignature b3 (str "getMeetingInfo") (MeetingInfo Parse b3 id password).values) ∧
    carriesSignature b3 (str "getMeetings") (Meetings Parse b3).values ∧
    (∀ meetings : List GoString,
      carriesSignature b3 (str "getRecordings") (Recordings Parse b3 meetings).values) ∧
    (∀ (recordings : List GoString) (publish : Bool) (r : Request URL),
      PublishRecordings Parse b3 recordings publish = some r →
      carriesSignature b3 (str "publishRecordings") r.values) ∧
    (∀ (recordings : List GoString) (r : Request URL),
      DeleteRecordings Parse b3 recordings = some r →
      carriesSignature b3 (str "deleteRecordings") r.values) ∧
    ((ServerVersion b3).values = [] ∧ (ServerVersion b3).ref = none ∧
      (ServerVersion b3).url = some b3.Url) := by
  obtain ⟨hm, hp, hf, hc, hr, hpub⟩ := own_keys_ne_checksum
  have hmerge : ∀ (a b : Values), (∀ k ∈ Values.keys a, str "checksum" ≠ k) →
      Values.has b (str "checksum") = false →
      Values.has (mergeUrlValues [a, b]) (str "checksum") = false := by
    intro a b ha hb
    apply (has_eq_false_iff _ _).2
    intro hmem
    rcases keys_mergeUrlValues a b _ hmem with h1 | h1
    · exact ha _ h1 rfl
    · exact (has_eq_false_iff b _).1 hb h1
  refine ⟨?_, ?_, ?_, ?_, ?_, ?_, ?_, ?_, ?_, ?_, ?_, ⟨rfl, rfl, rfl⟩⟩
  · intro id options r hopt hreq
    have hq := hmerge [(str "meetingID", [id])] options.Values
      (by simp [Values.keys, hm]) hopt
    have hsig := makeURL_carriesSignature Parse b3 (str "create") _ hq
    unfold Create at hreq
    cases hd : options.Documents with
    | none =>
      simp only [hd] at hreq
      cases hreq
      exact hsig
    | some docs =>
      simp only [hd] at hreq
      by_cases hl : docs.length > 0
      · simp only [hl, if_true] at hreq
        cases hb : buildCreateMeetingXML docs with
        | none => simp [hb] at hreq
        | some mods =>
          simp only [hb] at hreq
          cases hreq
          exact hsig
      · simp only [hl, if_false] at hreq
        cases hreq
        exact hsig
  · exact makeURL_carriesSignature Parse b3 _ [] rfl
  · intro meeting configXML r hreq
    unfold SetConfigXML at hreq
    have hq : Values.has [(str "meetingID", [meeting]), (str "configXML", [configXML])]
        (str "checksum") = false :=
      has_checksum_false_of_keys _ (by simp [Values.keys, hm, hc])
    cases hu : Parse b3.Url (str "setConfigXML" ++ str ".xml") with
    | none => simp [hu] at hreq
    | some u =>
      simp only [hu] at hreq
      cases hreq
      unfold carriesSignature
      simp only [Add_of_not_has _ _ _ hq]
      rw [filter_append_checksum _ _ hq]
      exact lookup_append_singleton_self _ _ _ hq
  · intro name meetingID password options hopt
    have hq := hmerge
      [(str "fullName", [name]), (str "meetingID", [meetingID]), (str "password", [password])]
      options.Values (by simp [Values.keys, hm, hp, hf]) hopt
    exact makeURL_carriesSignature Parse b3 (str "join") _ hq
  · intro id
    exact makeURL_carriesSignature Parse b3 _ [(str "meetingID", [id])]
      (has_checksum_false_of_keys _ (by simp [Values.keys, hm]))
  · intro id password
    exact makeURL_carriesSignature Parse b3 _
      [(str "meetingID", [id]), (str "password", [password])]
      (has_checksum_false_of_keys _ (by simp [Values.keys, hm, hp]))
  · intro id password
    exact makeURL_carriesSignature Parse b3 _
      [(str "meetingID", [id]), (str "password", [password])]
      (has_checksum_false_of_keys _ (by simp [Values.keys, hm, hp]))
  · exact makeURL_carriesSignature Parse b3 _ [] rfl
  · intro meetings
    unfold Recordings
    by_cases hl : meetings.length > 0
    · simp only [hl, if_true]
      exact makeURL_carriesSignature Parse b3 _
        (Values.Set [] (str "meetingID") (Join meetings (str ",")))
        (has_checksum_false_of_keys _ (by
          simp [Values.Set, Values.put, Values.has, Values.keys, hm]))
    · simp only [hl, if_false]
      exact makeURL_carriesSignature Parse b3 _ [] rfl
  · intro recordings publish r hreq
    unfold PublishRecordings at hreq
    by_cases hl : recordings.length > 0
    · simp only [hl, if_true] at hreq
      cases hreq
      exact makeURL_carriesSignature Parse b3 _
        [(str "recordID", [Join recordings (str ",")]), (str "publish", [FormatBool publish])]
        (has_checksum_false_of_keys _ (by simp [Values.keys, hr, hpub]))
    · simp [hl] at hreq
  · intro recordings r hreq
    unfold DeleteRecordings at hreq
    by_cases hl : recordings.length > 0
    · simp only [hl, if_true] at hreq
      cases hreq
      exact makeURL_carriesSignature Parse b3 _ [(str "recordID", [Join recordings (str ",")])]
        (has_checksum_false_of_keys _ (by simp [Values.keys, hr]))
    · simp [hl] at hreq

/-- Witness of C5: a create call with an option, a setConfigXML call, a join
URL, and the publishing and deleting of two recordings. -/
theorem C5_operations_carry_signature_witness :
    (Values.has [(str "name", [str "Demo"])] (str "checksum") = false ∧
      carriesSignature (⟨str "s3cr3t", str "http://bbb/api/"⟩ : BigBlueButton GoString) (str "create")
        (makeURL (fun base ref => some (base ++ ref)) (⟨str "s3cr3t", str "http://bbb/api/"⟩ : BigBlueButton GoString) (str "create") (mergeUrlValues [[(str "meetingID", [str "42"])], [(str "name", [str "Demo"])]])).query) ∧
    carriesSignature (⟨str "s3cr3t", str "http://bbb/api/"⟩ : BigBlueButton GoString) (str "setConfigXML")
      (Values.Add [(str "meetingID", [str "42"]), (str "configXML", [str "<config/>"])]
        (str "checksum")
        (checksum (⟨str "s3cr3t", str "http://bbb/api/"⟩ : BigBlueButton GoString) (str "setConfigXML")
          (Encode [(str "meetingID", [str "42"]), (str "configXML", [str "<config/>"])]))) ∧
    carriesSignature (⟨str "s3cr3t", str "http://bbb/api/"⟩ : BigBlueButton GoString) (str "join")
      (JoinURL (fun base ref => some (base ++ ref)) (⟨str "s3cr3t", str "http://bbb/api/"⟩ : BigBlueButton GoString) (str "Ann") (str "42") (str "pw") (⟨[(str "name", [str "Demo"])], none⟩ : OptionEncoder Unit)).query ∧
    carriesSignature (⟨str "s3cr3t", str "http://bbb/api/"⟩ : BigBlueButton GoString) (str "publishRecordings")
      (makeURL (fun base ref => some (base ++ ref)) (⟨str "s3cr3t", str "http://bbb/api/"⟩ : BigBlueButton GoString) (str "publishRecordings") [(str "recordID", [Join [str "r1", str "r2"] (str ",")]), (str "publish", [FormatBool true])]).query ∧
    carriesSignature (⟨str "s3cr3t", str "http://bbb/api/"⟩ : BigBlueButton GoString) (str "deleteRecordings")
      (makeURL (fun base ref => some (base ++ ref)) (⟨str "s3cr3t", str "http://bbb/api/"⟩ : BigBlueButton GoString) (str "deleteRecordings") [(str "recordID", [Join [str "r1", str "r2"] (str ",")])]).query :=
  ⟨⟨by decide,
    (@C5_operations_carry_signature GoString Unit (fun base ref => some (base ++ ref)) (fun (_ : List Unit) => none) (⟨str "s3cr3t", str "http://bbb/api/"⟩ : BigBlueButton GoString)).1 (str "42") (⟨[(str "name", [str "Demo"])], none⟩ : OptionEncoder Unit)
      ⟨Method.Get, (makeURL (fun base ref => some (base ++ ref)) (⟨str "s3cr3t", str "http://bbb/api/"⟩ : BigBlueButton GoString) (str "create") (mergeUrlValues [[(str "meetingID", [str "42"])], [(str "name", [str "Demo"])]])).url, some (makeURL (fun base ref => some (base ++ ref)) (⟨str "s3cr3t", str "http://bbb/api/"⟩ : BigBlueButton GoString) (str "create") (mergeUrlValues [[(str "meetingID", [str "42"])], [(str "name", [str "Demo"])]])).ref, (makeURL (fun base ref => some (base ++ ref)) (⟨str "s3cr3t", str "http://bbb/api/"⟩ : BigBlueButton GoString) (str "create") (mergeUrlValues [[(str "meetingID", [str "42"])], [(str "name", [str "Demo"])]])).query, none⟩ (by decide) rfl⟩,
   (@C5_operations_carry_signature GoString Unit (fun base ref => some (base ++ ref)) (fun (_ : List Unit) => none) (⟨str "s3cr3t", str "http://bbb/api/"⟩ : BigBlueButton GoString)).2.2.1 (str "42") (str "<config/>")
      ⟨Method.PostForm, some (str "http://bbb/api/" ++ (str "setConfigXML" ++ str ".xml")),
        some (str "setConfigXML" ++ str ".xml"), (Values.Add [(str "meetingID", [str "42"]), (str "configXML", [str "<config/>"])]
        (str "checksum")
        (checksum (⟨str "s3cr3t", str "http://bbb/api/"⟩ : BigBlueButton GoString) (str "setConfigXML")
          (Encode [(str "meetingID", [str "42"]), (str "configXML", [str "<config/>"])]))), none⟩ rfl,
   (@C5_operations_carry_signature GoString Unit (fun base ref => some (base ++ ref)) (fun (_ : List Unit) => none) (⟨str "s3cr3t", str "http://bbb/api/"⟩ : BigBlueButton GoString)).2.2.2.1 (str "Ann") (str "42") (str "pw") (⟨[(str "name", [str "Demo"])], none⟩ : OptionEncoder Unit) (by decide),
   (@C5_operations_carry_signature GoString Unit (fun base ref => some (base ++ ref)) (fun (_ : List Unit) => none) (⟨str "s3cr3t", str "http://bbb/api/"⟩ : BigBlueButton GoString)).2.2.2.2.2.2.2.2.2.1 [str "r1", str "r2"] true
      ⟨Method.Get, (makeURL (fun base ref => some (base ++ ref)) (⟨str "s3cr3t", str "http://bbb/api/"⟩ : BigBlueButton GoString) (str "publishRecordings") [(str "recordID", [Join [str "r1", str "r2"] (str ",")]), (str "publish", [FormatBool true])]).url, some (makeURL (fun base ref => some (base ++ ref)) (⟨str "s3cr3t", str "http://bbb/api/"⟩ : BigBlueButton GoString) (str "publishRecordings") [(str "recordID", [Join [str "r1", str "r2"] (str ",")]), (str "publish", [FormatBool true])]).ref, (makeURL (fun base ref => some (base ++ ref)) (⟨str "s3cr3t", str "http://bbb/api/"⟩ : BigBlueButton GoString) (str "publishRecordings") [(str "recordID", [Join [str "r1", str "r2"] (str ",")]), (str "publish", [FormatBool true])]).query, none⟩ rfl,
   (@C5_operations_carry_signature GoString Unit (fun base ref => some (base ++ ref)) (fun (_ : List Unit) => none) (⟨str "s3cr3t", str "http://bbb/api/"⟩ : BigBlueButton GoString)).2.2.2.2.2.2.2.2.2.2.1 [str "r1", str "r2"]
      ⟨Method.Get, (makeURL (fun base ref => some (base ++ ref)) (⟨str "s3cr3t", str "http://bbb/api/"⟩ : BigBlueButton GoString) (str "deleteRecordings") [(str "recordID", [Join [str "r1", str "r2"] (str ",")])]).url, some (makeURL (fun base ref => some (base ++ ref)) (⟨str "s3cr3t", str "http://bbb/api/"⟩ : BigBlueButton GoString) (str "deleteRecordings") [(str "recordID", [Join [str "r1", str "r2"] (str ",")])]).ref, (makeURL (fun base ref => some (base ++ ref)) (⟨str "s3cr3t", str "http://bbb/api/"⟩ : BigBlueButton GoString) (str "deleteRecordings") [(str "recordID", [Join [str "r1", str "r2"] (str ",")])]).query, none⟩ rfl⟩

/-- C5 fails as stated: the request of ServerVersion has no `checksum` field,
so it carries the signature of no action; and a create call whose options
bring a `checksum` value of their own carries that value, which is not the
signature. -/
theorem C5_counterexample :
    ((ServerVersion (⟨str "s3cr3t", str "http://bbb/api/"⟩ : BigBlueButton GoString)).values.lookup (str "checksum") = none ∧
      ∀ action, ¬ carriesSignature (⟨str "s3cr3t", str "http://bbb/api/"⟩ : BigBlueButton GoString) action (ServerVersion (⟨str "s3cr3t", str "http://bbb/api/"⟩ : BigBlueButton GoString)).values) ∧
    (Option.map (fun r => r.values)
        (Create (fun base ref => some (base ++ ref)) (fun (_ : List Unit) => none) (⟨str "s3cr3t", str "http://bbb/api/"⟩ : BigBlueButton GoString) (str "42")
          (⟨[(str "checksum", [str "forged"])], none⟩ : OptionEncoder Unit))
      = some [(str "meetingID", [str "42"]), (str "checksum", [str "forged"])] ∧
     ¬ carriesSignature (⟨str "s3cr3t", str "http://bbb/api/"⟩ : BigBlueButton GoString) (str "create")
        [(str "meetingID", [str "42"]), (str "checksum", [str "forged"])]) := by
  refine ⟨⟨rfl, fun action h => ?_⟩, by decide, by decide⟩
  unfold carriesSignature at h
  exact absurd h (by simp [ServerVersion])

/-- The query of the URL requested by the operations without options is the
canonical encoding of the parameters the request is recorded with. -/
theorem request_ref_encodes_values {URL : Type} (Parse : URL → GoString → Option URL)
    (b3 : BigBlueButton URL) (id password : GoString) (meetings : List GoString) :
    (DefaultConfigXML Parse b3).ref
      = some (str "getDefaultConfigXML" ++ str "?" ++ Encode (DefaultConfigXML Parse b3).values) ∧
    (IsMeetingRunning Parse b3 id).ref
      = some (str "isMeetingRunning" ++ str "?" ++ Encode (IsMeetingRunning Parse b3 id).values) ∧
    (End.request Parse b3 id password).ref
      = some (str "end" ++ str "?" ++ Encode (End.request Parse b3 id password).values) ∧
    (MeetingInfo Parse b3 id password).ref
      = some (str "getMeetingInfo" ++ str "?" ++ Encode (MeetingInfo Parse b3 id password).values) ∧
    (Meetings Parse b3).ref
      = some (str "getMeetings" ++ str "?" ++ Encode (Meetings Parse b3).values) ∧
    (Recordings Parse b3 meetings).ref
      = some (str "getRecordings" ++ str "?" ++ Encode (Recordings Parse b3 meetings).values) :=
  ⟨rfl, rfl, rfl, rfl, rfl, rfl⟩

end Gobbb
